import Mathlib

/-!
Powers of Tau: the `contribute` step of snarkjs.

A shallow embedding of `src/powersoftau_contribute.js` (functions `contribute` and
`processSection`) together with the properties of the streamed point transformation,
of the two rolling hashes, of the reserve-and-patch section writer and of the chunk loop.

Conventions of the embedding:

* byte buffers (`Uint8Array`, `Buffer`) are lists of byte values;
* a file handle is a byte array with a cursor, `write` at a position overwrites and extends;
* scalars of `Fr` are natural numbers, `Fr.mul` and `Fr.pow` reduce modulo the order `r`;
* JavaScript 32-bit shifts are computed on integers with explicit wrap-around;
* the Blake2b hasher is the list of the bytes it absorbed, `digest` applies the digest
  function to that list;
* the curve library, the key generator, the digest function and the helpers of
  `powersoftau_utils` and `binfileutils` are parameters (structures `Grp`, `Curve`, `Env`);
* loops that may not terminate take a fuel argument and report `Err.outOfFuel` when it is
  exhausted.
-/

set_option autoImplicit false

namespace Snarkjs

/-! ## Bytes and little-endian words -/

/-- A byte buffer. -/
abbrev Bytes := List Nat

/-- Little-endian encoding of `v` on `k` bytes; the value is truncated modulo `256 ^ k`
(`writeULE32` is `toLE 4`, `writeULE64` is `toLE 8`). -/
def toLE : Nat → Nat → Bytes
  | 0, _ => []
  | k + 1, v => (v % 256) :: toLE k (v / 256)

/-- Value of a little-endian byte string (`readULE32`, `readULE64`). -/
def fromLE : Bytes → Nat
  | [] => 0
  | b :: bs => b + 256 * fromLE bs

/-- The bytes `[p, p + len)` of a buffer. -/
def readAt (data : Bytes) (p len : Nat) : Bytes :=
  (data.drop p).take len

/-- Overwrite `data` from offset `p` with `buf`; a file shorter than `p` is first padded
with zero bytes, a write that reaches past the end extends the file. -/
def writeAt (data : Bytes) (p : Nat) (buf : Bytes) : Bytes :=
  (data ++ List.replicate (p - data.length) 0).take p ++ buf ++ data.drop (p + buf.length)

/-- `buffer.readUInt32BE(off)` on a digest (the digest has 64 bytes, every offset read by
`contribute` is in range). -/
def readUInt32BE (b : Bytes) (off : Nat) : Nat :=
  b.getD off 0 * 2 ^ 24 + b.getD (off + 1) 0 * 2 ^ 16 + b.getD (off + 2) 0 * 2 ^ 8
    + b.getD (off + 3) 0

/-! ## File handles -/

/-- A random-access file handle: contents and cursor (`fd.pos`). -/
structure Fd where
  data : Bytes
  pos : Nat
deriving DecidableEq, Repr

/-- The call `fd.write(buff, pos)`: without a position the write happens at the cursor; in both
cases the cursor ends right after the bytes written. -/
def Fd.write (fd : Fd) (buff : Bytes) (pos : Option Nat) : Fd :=
  { data := writeAt fd.data (pos.getD fd.pos) buff, pos := pos.getD fd.pos + buff.length }

/-- The call `fd.writeULE32(v, pos)`. -/
def Fd.writeULE32 (fd : Fd) (v : Nat) (pos : Option Nat) : Fd :=
  fd.write (toLE 4 v) pos

/-- The call `fd.writeULE64(v, pos)`. -/
def Fd.writeULE64 (fd : Fd) (v : Nat) (pos : Option Nat) : Fd :=
  fd.write (toLE 8 v) pos

/-- The call `fd.read(len)`: `len` bytes at the cursor, which advances; reading past the end of
the file throws (`none`). -/
def Fd.read (fd : Fd) (len : Nat) : Option (Bytes × Fd) :=
  if fd.pos + len ≤ fd.data.length then
    some (readAt fd.data fd.pos len, { data := fd.data, pos := fd.pos + len })
  else none

/-! ## Scalars and JavaScript integers -/

/-- The operation `Fr.e(v)`: the scalar of an integer literal. -/
def Fr.e (r v : Nat) : Nat := v % r

/-- The operation `Fr.mul(a, b)`. -/
def Fr.mul (r a b : Nat) : Nat := (a * b) % r

/-- The operation `Fr.pow(a, n)`. -/
def Fr.pow (r a n : Nat) : Nat := (a ^ n) % r

/-- JavaScript `ToInt32`. -/
def toInt32 (x : Int) : Int :=
  if x % 2 ^ 32 ≥ 2 ^ 31 then x % 2 ^ 32 - 2 ^ 32 else x % 2 ^ 32

/-- JavaScript `a << b`: the shift count is taken modulo 32 and the result wraps to a signed
32-bit integer. -/
def jsShl (a : Int) (b : Nat) : Int :=
  toInt32 (toInt32 a * 2 ^ (b % 32))

/-! ## Hasher -/

/-- A Blake2b instance, as the bytes absorbed so far. -/
structure Blake2b where
  absorbed : Bytes
deriving DecidableEq, Repr

/-- A fresh hasher `Blake2b(64)`. -/
def Blake2b.create : Blake2b := { absorbed := [] }

/-- The call `hasher.update(bytes)`. -/
def Blake2b.update (h : Blake2b) (b : Bytes) : Blake2b := { absorbed := h.absorbed ++ b }

/-- The call `hasher.digest()`, for the digest function `H`. -/
def Blake2b.digest (H : Bytes → Bytes) (h : Blake2b) : Bytes := H h.absorbed

/-- The call `hasher.getPartialHash()`: a snapshot of the internal state. -/
def Blake2b.getPartialHash (h : Blake2b) : Bytes := h.absorbed

/-- The call `hasher.setPartialHash(state)`: a hasher resumed from a snapshot. -/
def Blake2b.setPartialHash (state : Bytes) : Blake2b := { absorbed := state }

/-! ## Curve, keys and JavaScript objects -/

/-- A group of the curve (`curve.G1`, `curve.G2`) with the operations `processSection`
calls. `n8` is `G.F.n8`. -/
structure Grp where
  n8 : Nat
  batchApplyKey : Bytes → Nat → Nat → Bytes
  batchLEMtoU : Bytes → Bytes
  batchLEMtoC : Bytes → Bytes
  fromRprLEM : Bytes → Nat → Bytes

/-- The curve: the order `r` of the scalar field and the two groups. -/
structure Curve where
  r : Nat
  G1 : Grp
  G2 : Grp

/-- The lookup `curve[groupName]`. -/
def Curve.group (c : Curve) (groupName : String) : Option Grp :=
  if groupName = "G1" then some c.G1 else if groupName = "G2" then some c.G2 else none

/-- One of the three secrets of a key with its public proof. -/
structure KeyPart where
  prvKey : Nat
  pub : List Bytes
deriving DecidableEq, Repr

/-- The key created by `keyPair.createPTauKey`. -/
structure Key where
  tau : KeyPart
  alpha : KeyPart
  beta : KeyPart
deriving DecidableEq, Repr

/-- The JavaScript values stored in a contribution record. -/
inductive JSVal where
  | undefined
  | num (n : Int)
  | str (s : String)
  | bytes (b : Bytes)
  | point (p : Bytes)
  | key (k : Key)
deriving DecidableEq, Repr

/-- Assignment `o[k] = v` on the field list of an object. -/
def setField : List (String × JSVal) → String → JSVal → List (String × JSVal)
  | [], k, v => [(k, v)]
  | (k1, v1) :: rest, k, v =>
    if k1 = k then (k, v) :: rest else (k1, v1) :: setField rest k v

/-- Read `o[k]` on the field list of an object; an absent field reads `undefined`. -/
def getField : List (String × JSVal) → String → JSVal
  | [], _ => JSVal.undefined
  | (k1, v1) :: rest, k => if k1 = k then v1 else getField rest k

/-- A JavaScript object: its fields in insertion order. -/
structure Obj where
  fields : List (String × JSVal)
deriving DecidableEq, Repr

/-- Field read `o.k`. -/
def Obj.get (o : Obj) (k : String) : JSVal := getField o.fields k

/-- Field write `o.k = v`. -/
def Obj.set (o : Obj) (k : String) (v : JSVal) : Obj := { fields := setField o.fields k v }

/-- Array read `firstPoints[k]`: `undefined` past the end. -/
def pointAt (res : List Bytes) (k : Nat) : JSVal :=
  match res.get? k with
  | some p => JSVal.point p
  | none => JSVal.undefined

/-! ## Environment and input -/

/-- One entry `{p, size}` of the section table returned by `readBinFile`. -/
structure SectionEntry where
  p : Nat
  size : Nat
deriving DecidableEq, Repr

/-- The collaborators of `contribute` that are not part of the file. -/
structure Env where
  curve : Curve
  /-- The Blake2b-512 digest of a byte string. -/
  H : Bytes → Bytes
  /-- The result of `crypto.randomBytes(n)`. -/
  randomBytes : Nat → Bytes
  /-- The encoder `TextEncoder.encode`. -/
  encodeUtf8 : String → Bytes
  /-- The call `keyPair.createPTauKey(curve, challengeHash, new ChaCha(seed))`. -/
  createPTauKey : JSVal → List Nat → Key
  /-- The call `utils.calculateFirstChallangeHash(curve, power)`. -/
  calculateFirstChallangeHash : Nat → Bytes
  /-- The call `utils.toPtauPubKeyRpr(buff, pos, curve, key, montgomery)`, the buffer after it. -/
  toPtauPubKeyRpr : Bytes → Nat → Key → Bool → Bytes
  /-- The call `utils.formatHash(hash)`. -/
  formatHash : Bytes → String
  /-- The handle returned by `binFileUtils.createBinFile(fileName, type, version, nSections)`. -/
  createBinFile : String → String → Nat → Nat → Fd
  /-- The bytes of the header section for a power. -/
  headerRpr : Nat → Bytes
  /-- The bytes of the contributions section for a log. -/
  contributionsRpr : List Obj → Bytes

/-- Modelled from the spec: `utils.writePTauHeader(fd, curve, power)` is not part of the file; it
writes the header section (curve identifier, power, ceremony power) at the cursor, the bytes
being `Env.headerRpr power`. -/
def Env.writePTauHeader (env : Env) (fd : Fd) (power : Nat) : Fd :=
  fd.write (env.headerRpr power) none

/-- Modelled from the spec: `utils.writeContributions(fd, curve, contributions)` is not part of
the file; it writes the contribution-log section holding the ordered records at the cursor,
the bytes being `Env.contributionsRpr contributions`. -/
def Env.writeContributions (env : Env) (fd : Fd) (contributions : List Obj) : Fd :=
  fd.write (env.contributionsRpr contributions) none

/-- The arguments of `contribute` and what `readBinFile`, `readPTauHeader` and
`readContributions` returned for the old file. `entropy` is empty when the argument is absent;
`stdin` holds the answers the user gives to the entropy prompt. -/
structure Input where
  fdOld : Fd
  sections : List (Nat × List SectionEntry)
  power : Nat
  ceremonyPower : Nat
  contributions : List Obj
  newPTauFilename : String
  name : String
  entropy : String
  stdin : List String
  verbose : Bool

/-- The lookup `sections[id]`. -/
def Input.section (inp : Input) (id : Nat) : Option (List SectionEntry) :=
  inp.sections.lookup id

/-! ## `processSection` -/

/-- Why a run did not return: an exception, or a loop that exhausted its fuel. -/
inductive Err where
  | thrown (msg : String)
  | outOfFuel
deriving DecidableEq, Repr

/-- The variables of `contribute` that `processSection` captures and mutates. -/
structure PState where
  fdOld : Fd
  fdNew : Fd
  newChallangeHasher : Blake2b
  responseHasher : Blake2b
  console : List String
deriving DecidableEq, Repr

/-- The local variables of the chunk loop together with the captured state. -/
structure LoopState where
  t : Nat
  res : List Bytes
  st : PState
deriving DecidableEq, Repr

/-- The size in bytes of a point of the group: `G.F.n8*2`. -/
def Grp.sG (G : Grp) : Nat := G.n8 * 2

/-- The constant `Math.floor((1<<20) / sG)`, for `sG ≥ 1` (every field has `n8 ≥ 1`). -/
def chunkSize (sG : Nat) : Nat := (jsShl 1 20).toNat / sG

/-- The loop `for (let i=0; i<NPoints; i+=chunkSize) { const n = Math.min(NPoints-i, chunkSize); body }`
started at `i`. The body receives `i` and `n`. -/
def forChunks {σ : Type} (NPoints : Int) (chunkSize : Nat)
    (body : Nat → Nat → σ → Except (Err × σ) σ) : Nat → Nat → σ → Except (Err × σ) σ
  | 0, _, s => Except.error (Err.outOfFuel, s)
  | fuel + 1, i, s =>
    if (i : Int) < NPoints then
      match body i (min (NPoints - (i : Int)) (chunkSize : Int)).toNat s with
      | Except.error e => Except.error e
      | Except.ok s1 => forChunks NPoints chunkSize body fuel (i + chunkSize) s1
    else Except.ok s

/-- The body of the chunk loop of `processSection` (lines 129 to 143). -/
def chunkBody (r : Nat) (G : Grp) (verbose : Bool) (sectionName : String) (NPoints : Int)
    (inc : Nat) (i n : Nat) (s : LoopState) : Except (Err × LoopState) LoopState :=
  let console1 :=
    if verbose && i != 0 then s.st.console ++ [sectionName ++ ": " ++ toString i]
    else s.st.console
  match s.st.fdOld.read (n * G.sG) with
  | none =>
    Except.error (Err.thrown "Reading out of bounds",
      { t := s.t, res := s.res,
        st := { fdOld := s.st.fdOld, fdNew := s.st.fdNew,
                newChallangeHasher := s.st.newChallangeHasher,
                responseHasher := s.st.responseHasher, console := console1 } })
  | some (buffIn, fdOld1) =>
    let buffOutLEM := G.batchApplyKey buffIn s.t inc
    let buffOutU := G.batchLEMtoU buffOutLEM
    let buffOutC := G.batchLEMtoC buffOutLEM
    Except.ok
      { t := Fr.mul r s.t (Fr.pow r inc n),
        res :=
          if i = 0 then
            s.res ++ (List.range (min 2 NPoints).toNat).map
              (fun j => G.fromRprLEM buffOutLEM (j * G.sG))
          else s.res,
        st := { fdOld := fdOld1, fdNew := s.st.fdNew.write buffOutLEM none,
                newChallangeHasher := s.st.newChallangeHasher.update buffOutU,
                responseHasher := s.st.responseHasher.update buffOutC,
                console := console1 } }

/-- Lines 119 to 122 of `processSection`: position the input, write the section id and the
zero length placeholder. Returns `pSection` and the state. -/
def sectionOpen (inp : Input) (sectionId : Nat) (st : PState) :
    Except (Err × PState) (Nat × PState) :=
  match (inp.section sectionId).bind List.head? with
  | none => Except.error (Err.thrown "TypeError: cannot read properties of undefined", st)
  | some entry =>
    let fdA := st.fdNew.writeULE32 sectionId none
    Except.ok (fdA.pos,
      { fdOld := { data := st.fdOld.data, pos := entry.p }, fdNew := fdA.writeULE64 0 none,
        newChallangeHasher := st.newChallangeHasher, responseHasher := st.responseHasher,
        console := st.console })

/-- Lines 146 to 149 of `processSection`: patch the length and restore the cursor. -/
def sectionClose (pSection : Nat) (st : PState) : PState :=
  let sSize := st.fdNew.pos - pSection - 8
  let lastPos := st.fdNew.pos
  let fdC := st.fdNew.writeULE64 sSize (some pSection)
  { fdOld := st.fdOld, fdNew := { data := fdC.data, pos := lastPos },
    newChallangeHasher := st.newChallangeHasher, responseHasher := st.responseHasher,
    console := st.console }

/-- The function `processSection(sectionId, groupName, NPoints, first, inc, sectionName)`. -/
def processSection (env : Env) (inp : Input) (fuel : Nat) (sectionId : Nat)
    (groupName : String) (NPoints : Int) (first inc : Nat) (sectionName : String)
    (st : PState) : Except (Err × PState) (List Bytes × PState) :=
  match sectionOpen inp sectionId st with
  | Except.error e => Except.error e
  | Except.ok (pSection, st1) =>
    match env.curve.group groupName with
    | none => Except.error (Err.thrown "TypeError: cannot read properties of undefined", st1)
    | some G =>
      match forChunks NPoints (chunkSize G.sG)
          (chunkBody env.curve.r G inp.verbose sectionName NPoints inc) fuel 0
          { t := first, res := [], st := st1 } with
      | Except.error (e, s) => Except.error (e, s.st)
      | Except.ok s => Except.ok (s.res, sectionClose pSection s.st)

/-! ## `contribute` -/

/-- The loop `while (!entropy) entropy = await askEntropy()`: the first non-empty text among
the argument and the answers typed by the user; `none` when the answers run out, the prompt
then waits forever. -/
def askEntropyLoop (entropy : String) : List String → Option String
  | [] => if entropy ≠ "" then some entropy else none
  | answer :: rest => if entropy ≠ "" then some entropy else askEntropyLoop answer rest

/-- What a completed run leaves: the output handle, the `contributions` array that was written,
the local `hashResponse` and the lines logged to the console. -/
structure Result where
  fdNew : Fd
  contributions : List Obj
  hashResponse : Bytes
  console : List String
deriving DecidableEq, Repr

/-- The outcome of a run: it returned, or it stopped with an error; `fdNew` is then the output
handle at that moment, `none` when `createBinFile` was not reached. -/
inductive Outcome where
  | failed (e : Err) (fdNew : Option Fd)
  | done (r : Result)
deriving DecidableEq, Repr

/-- The record `curContribution` once the five sections are processed (lines 82 to 97), from the
checkpoints returned by the five calls. -/
def finishRecord (env : Env) (cur1 : Obj) (fp2 fp3 fp4 fp5 fp6 : List Bytes) (st : PState) :
    Obj :=
  let cur2 := cur1.set "tauG1" (pointAt fp2 1)
  let cur3 := cur2.set "tauG2" (pointAt fp3 1)
  let cur4 := cur3.set "alphaG1" (pointAt fp4 0)
  let cur5 := cur4.set "betaG1" (pointAt fp5 0)
  let cur6 := cur5.set "betaG2" (pointAt fp6 0)
  let cur7 := cur6.set "nextChallange" (JSVal.bytes (st.newChallangeHasher.digest env.H))
  cur7.set "partialHash" (JSVal.bytes st.responseHasher.getPartialHash)

/-- The buffer `buffKey` (lines 99 to 101): the serialized public key. -/
def buffKey (env : Env) (key : Key) : Bytes :=
  env.toPtauPubKeyRpr
    (List.replicate (env.curve.G1.n8 * 2 * 6 + env.curve.G2.n8 * 2 * 3) 0) 0 key false

/-- The end of `contribute` (lines 92 to 114): the record is completed, the response hash is
computed and logged, the record is pushed to the log and the log is written. -/
def finish (env : Env) (inp : Input) (cur1 : Obj) (key : Key)
    (fp2 fp3 fp4 fp5 fp6 : List Bytes) (st : PState) : Result :=
  let hashResponse := (st.responseHasher.update (buffKey env key)).digest env.H
  let contributions := inp.contributions ++ [finishRecord env cur1 fp2 fp3 fp4 fp5 fp6 st]
  { fdNew := env.writeContributions st.fdNew contributions,
    contributions := contributions,
    hashResponse := hashResponse,
    console := st.console ++ ["Next Challange Hash: ",
      env.formatHash (st.newChallangeHasher.digest env.H),
      "Contribution Response Hash imported: ", env.formatHash hashResponse] }

/-- Lines 45 to 51 of `contribute`: the challenge the contribution answers, the `nextChallange`
of the last record of the log, or the first challenge when the log is empty. -/
def lastChallangeHash (env : Env) (inp : Input) : JSVal :=
  match inp.contributions.getLast? with
  | some c => c.get "nextChallange"
  | none => JSVal.bytes (env.calculateFirstChallangeHash inp.power)

/-- Lines 57 to 68 of `contribute`: the key generated from the random bytes and the entropy. -/
def createKey (env : Env) (challenge : JSVal) (entropy : String) : Key :=
  let hash :=
    ((Blake2b.create.update (env.randomBytes 64)).update (env.encodeUtf8 entropy)).digest env.H
  let seed := (List.range 8).map (fun i => readUInt32BE hash (i * 4))
  env.createPTauKey challenge seed

/-- Lines 77 and 78 of `contribute`: the output handle once the header is written. -/
def openOutput (env : Env) (inp : Input) : Fd :=
  env.writePTauHeader (env.createBinFile inp.newPTauFilename "ptau" 1 7) inp.power

/-- The function `contribute(oldPtauFilename, newPTauFilename, name, entropy, verbose)`, on the
old file as read by `readBinFile`, `readPTauHeader` and `readContributions`. -/
def contribute (env : Env) (inp : Input) (fuel : Nat) : Outcome :=
  if inp.power != inp.ceremonyPower then
    Outcome.failed
      (Err.thrown "This file has been reduced. You cannot contribute into a reduced file.") none
  else
    let console0 :=
      if (inp.section 12).isSome then
        ["WARNING: Contributing into a fle that has phase2 calculated. You will have to prepare phase2 again."]
      else []
    let cur0 : Obj := { fields := [("name", JSVal.str inp.name), ("type", JSVal.num 0)] }
    match askEntropyLoop inp.entropy inp.stdin with
    | none => Outcome.failed Err.outOfFuel none
    | some entropy =>
      let key := createKey env (lastChallangeHash env inp) entropy
      let cur1 := cur0.set "key" (JSVal.key key)
      match lastChallangeHash env inp with
      | JSVal.bytes lastBytes =>
        let st0 : PState :=
          { fdOld := inp.fdOld, fdNew := openOutput env inp,
            newChallangeHasher := Blake2b.create.update lastBytes,
            responseHasher := Blake2b.create.update lastBytes,
            console := console0 }
        match processSection env inp fuel 2 "G1" (jsShl 1 inp.power * 2 - 1)
            (Fr.e env.curve.r 1) key.tau.prvKey "tauG1" st0 with
        | Except.error (e, st) => Outcome.failed e (some st.fdNew)
        | Except.ok (fp2, st2) =>
        match processSection env inp fuel 3 "G2" (jsShl 1 inp.power)
            (Fr.e env.curve.r 1) key.tau.prvKey "tauG2" st2 with
        | Except.error (e, st) => Outcome.failed e (some st.fdNew)
        | Except.ok (fp3, st3) =>
        match processSection env inp fuel 4 "G1" (jsShl 1 inp.power)
            key.alpha.prvKey key.tau.prvKey "alphaTauG1" st3 with
        | Except.error (e, st) => Outcome.failed e (some st.fdNew)
        | Except.ok (fp4, st4) =>
        match processSection env inp fuel 5 "G1" (jsShl 1 inp.power)
            key.beta.prvKey key.tau.prvKey "betaTauG1" st4 with
        | Except.error (e, st) => Outcome.failed e (some st.fdNew)
        | Except.ok (fp5, st5) =>
        match processSection env inp fuel 6 "G2" 1
            key.beta.prvKey key.tau.prvKey "betaTauG2" st5 with
        | Except.error (e, st) => Outcome.failed e (some st.fdNew)
        | Except.ok (fp6, st6) =>
          Outcome.done (finish env inp cur1 key fp2 fp3 fp4 fp5 fp6 st6)
      | _ => Outcome.failed (Err.thrown "input must be Uint8Array or Buffer") none

/-! ## Specification vocabulary -/

/-- The first `p` bytes of a file once it is padded with zeros up to `p`. -/
def padTo (d : Bytes) (p : Nat) : Bytes :=
  (d ++ List.replicate (p - d.length) 0).take p

/-- The buffers `buffOutLEM` produced by the chunk loop for `m` remaining points, running
scalar `t` and remaining input `inp`, chunk after chunk. -/
def chunkOuts (G : Grp) (r inc c : Nat) : Nat → Nat → Nat → Bytes → List Bytes
  | 0, _, _, _ => []
  | fuel + 1, m, t, inp =>
    if m = 0 then []
    else
      G.batchApplyKey (inp.take (min m c * G.sG)) t inc ::
        chunkOuts G r inc c fuel (m - min m c) (Fr.mul r t (Fr.pow r inc (min m c)))
          (inp.drop (min m c * G.sG))

/-- The state of the chunk loop after it produced the buffers `outs`, started from `s` at
index `i`. -/
def LoopPost (G : Grp) (N : Int) (i : Nat) (s : LoopState) (outs : List Bytes)
    (s1 : LoopState) : Prop :=
  s1.st.fdNew = s.st.fdNew.write outs.flatten none ∧
  s1.st.fdOld = { data := s.st.fdOld.data, pos := s.st.fdOld.pos + (N - i).toNat * G.sG } ∧
  s1.st.newChallangeHasher = s.st.newChallangeHasher.update (outs.map G.batchLEMtoU).flatten ∧
  s1.st.responseHasher = s.st.responseHasher.update (outs.map G.batchLEMtoC).flatten ∧
  s1.res = (if i = 0 then
      s.res ++ (List.range (min 2 N).toNat).map (fun j => G.fromRprLEM (outs.headD []) (j * G.sG))
    else s.res)

/-- The bytes of a section of the output: id on 4 bytes, length on 8 bytes, payload. -/
def sectionRpr (sectionId : Nat) (payload : Bytes) : Bytes :=
  toLE 4 sectionId ++ (toLE 8 payload.length ++ payload)

/-- The state after `processSection` wrote the buffers `outs` for the input section at `p`. -/
def SectionPost (G : Grp) (sectionId : Nat) (N : Int) (p : Nat) (st : PState)
    (outs : List Bytes) (res : List Bytes) (st1 : PState) : Prop :=
  st1.fdNew = st.fdNew.write (sectionRpr sectionId outs.flatten) none ∧
  st1.fdOld = { data := st.fdOld.data, pos := p + N.toNat * G.sG } ∧
  st1.newChallangeHasher = st.newChallangeHasher.update (outs.map G.batchLEMtoU).flatten ∧
  st1.responseHasher = st.responseHasher.update (outs.map G.batchLEMtoC).flatten ∧
  res = (List.range (min 2 N).toNat).map (fun j => G.fromRprLEM (outs.headD []) (j * G.sG))

/-- The batch transformation returns as many bytes as it receives. -/
def Grp.LengthPreserving (G : Grp) : Prop :=
  ∀ (b : Bytes) (t inc : Nat), (G.batchApplyKey b t inc).length = b.length

/-- A batch encoding works point by point: it distributes over the concatenation of buffers
holding whole points. -/
def Grp.Additive (G : Grp) (f : Bytes → Bytes) : Prop :=
  ∀ a b : Bytes, G.sG ∣ a.length → f (a ++ b) = f a ++ f b

/-- The contract of `G.batchApplyKey(buf, t, inc)`: the point of index `j` of the buffer is
multiplied by `t * inc ^ j`, where `mulPt` is the scalar multiplication of one encoded point. -/
def Grp.ApplyKeySpec (G : Grp) (r : Nat) (mulPt : Bytes → Nat → Bytes) : Prop :=
  ∀ (pts : List Bytes) (t inc : Nat), (∀ p ∈ pts, p.length = G.sG) →
    G.batchApplyKey pts.flatten t inc =
      ((List.range pts.length).map
        (fun j => mulPt (pts.getD j []) (Fr.mul r t (Fr.pow r inc j)))).flatten

/-- The position `sections[id][0].p` of a section of the old file (0 when it is absent). -/
def sectionPos (inp : Input) (id : Nat) : Nat :=
  match (inp.section id).bind List.head? with
  | some e => e.p
  | none => 0

/-- The argument `NPoints` of the call of `processSection` for the section `id`. -/
def nPoints (power : Nat) : Nat → Int
  | 2 => jsShl 1 power * 2 - 1
  | 6 => 1
  | _ => jsShl 1 power

/-- The group of the call of `processSection` for the section `id`. -/
def secGroup (c : Curve) : Nat → Grp
  | 3 => c.G2
  | 6 => c.G2
  | _ => c.G1

/-- The argument `first` of the call of `processSection` for the section `id`. -/
def secFirst (r : Nat) (key : Key) : Nat → Nat
  | 4 => key.alpha.prvKey
  | 5 => key.beta.prvKey
  | 6 => key.beta.prvKey
  | _ => Fr.e r 1

/-- The buffers written by `contribute` for the section `id`, chunk after chunk. -/
def secOuts (env : Env) (inp : Input) (key : Key) (id : Nat) : List Bytes :=
  chunkOuts (secGroup env.curve id) env.curve.r key.tau.prvKey
    (chunkSize (secGroup env.curve id).sG) (nPoints inp.power id).toNat
    (nPoints inp.power id).toNat (secFirst env.curve.r key id)
    (inp.fdOld.data.drop (sectionPos inp id))

/-- The payload written by `contribute` for the section `id`. -/
def secPayload (env : Env) (inp : Input) (key : Key) (id : Nat) : Bytes :=
  (secOuts env inp key id).flatten

/-- The checkpoints `firstPoints` returned for the section `id`. -/
def secFirstPoints (env : Env) (inp : Input) (key : Key) (id : Nat) : List Bytes :=
  (List.range (min 2 (nPoints inp.power id)).toNat).map
    (fun j => (secGroup env.curve id).fromRprLEM ((secOuts env inp key id).headD [])
      (j * (secGroup env.curve id).sG))

/-- The key of a run. -/
def runKey (env : Env) (inp : Input) : Key :=
  createKey env (lastChallangeHash env inp) ((askEntropyLoop inp.entropy inp.stdin).getD "")

/-- The record `curContribution` of a run before the sections are processed. -/
def runRecord (env : Env) (inp : Input) : Obj :=
  (Obj.mk [("name", JSVal.str inp.name), ("type", JSVal.num 0)]).set "key"
    (JSVal.key (runKey env inp))

/-- The five sections of points as `contribute` writes them, one after the other. -/
def sectionsRpr (env : Env) (inp : Input) : Bytes :=
  sectionRpr 2 (secPayload env inp (runKey env inp) 2) ++
  (sectionRpr 3 (secPayload env inp (runKey env inp) 3) ++
  (sectionRpr 4 (secPayload env inp (runKey env inp) 4) ++
  (sectionRpr 5 (secPayload env inp (runKey env inp) 5) ++
   sectionRpr 6 (secPayload env inp (runKey env inp) 6))))

/-- The bytes fed to a hasher by the five calls of `processSection`, for the encodings `e1` of
the group `G1` and `e2` of the group `G2`. -/
def hashStream (env : Env) (inp : Input) (e1 e2 : Bytes → Bytes) : Bytes :=
  ((secOuts env inp (runKey env inp) 2).map e1).flatten ++
  (((secOuts env inp (runKey env inp) 3).map e2).flatten ++
  (((secOuts env inp (runKey env inp) 4).map e1).flatten ++
  (((secOuts env inp (runKey env inp) 5).map e1).flatten ++
   ((secOuts env inp (runKey env inp) 6).map e2).flatten)))

/-- An input `contribute` accepts and fully processes: the power is the ceremony power, an
entropy text is eventually supplied, the challenge to answer is a byte string, the points of
both groups have between 1 and `2 ^ 20` bytes, and the five sections are present in the old
file with all their points. -/
structure Accepted (env : Env) (inp : Input) : Prop where
  power_eq : inp.power = inp.ceremonyPower
  entropy : ∃ e, askEntropyLoop inp.entropy inp.stdin = some e
  challenge : ∃ b, lastChallangeHash env inp = JSVal.bytes b
  size1 : 1 ≤ env.curve.G1.sG ∧ env.curve.G1.sG ≤ 2 ^ 20
  size2 : 1 ≤ env.curve.G2.sG ∧ env.curve.G2.sG ≤ 2 ^ 20
  present : ∀ id ∈ [2, 3, 4, 5, 6], ∃ e, (inp.section id).bind List.head? = some e ∧
    e.p + (nPoints inp.power id).toNat * (secGroup env.curve id).sG ≤ inp.fdOld.data.length

/-- Read back `k` consecutive sections of a file from offset `p`: for each one the id, the
value of the length field and the payload. -/
def readSections (data : Bytes) : Nat → Nat → List (Nat × Nat × Bytes)
  | 0, _ => []
  | k + 1, p =>
    (fromLE (readAt data p 4), fromLE (readAt data (p + 4) 8),
      readAt data (p + 12) (fromLE (readAt data (p + 4) 8))) ::
      readSections data k (p + 12 + fromLE (readAt data (p + 4) 8))

/-- Run a loop body on a list of chunk lengths, the index advancing by `c` after each chunk and
an error stopping the run. -/
def foldChunks {σ : Type} (body : Nat → Nat → σ → Except (Err × σ) σ) (c : Nat) :
    Nat → List Nat → σ → Except (Err × σ) σ
  | _, [], s => Except.ok s
  | i, n :: rest, s =>
    match body i n s with
    | Except.error e => Except.error e
    | Except.ok s1 => foldChunks body c (i + c) rest s1

/-! ## A small instance

A curve with two-byte points over the scalar field of order 7 and an old file of 24 bytes,
used to instantiate the theorems and to evaluate `contribute`. -/

/-- A toy batch transformation on two-byte points: the point of index `j` is scaled by
`t * inc ^ j`. -/
def toyApplyFrom (r t inc : Nat) : Nat → Bytes → Bytes
  | j, x :: y :: rest =>
    (x * Fr.mul r t (Fr.pow r inc j) % 256) :: (y * Fr.mul r t (Fr.pow r inc j) % 256) ::
      toyApplyFrom r t inc (j + 1) rest
  | _, rest => rest

/-- The scalar multiplication of a toy point. -/
def toyMulPt (p : Bytes) (s : Nat) : Bytes :=
  p.map (fun x => x * s % 256)

/-- A toy group with points of two bytes. -/
def toyGrp (r : Nat) : Grp :=
  { n8 := 1,
    batchApplyKey := fun b t inc => toyApplyFrom r t inc 0 b,
    batchLEMtoU := fun b => b.map (fun x => x + 1),
    batchLEMtoC := fun b => b.map (fun x => x % 16),
    fromRprLEM := fun b off => (b.drop off).take 2 }

/-- A toy environment over the scalar field of order 7. -/
def toyEnv : Env :=
  { curve := { r := 7, G1 := toyGrp 7, G2 := toyGrp 7 },
    H := fun b => [b.sum % 256, b.length % 256],
    randomBytes := fun n => List.replicate n 1,
    encodeUtf8 := fun s => s.toList.map Char.toNat,
    createPTauKey := fun _ _ =>
      { tau := { prvKey := 3, pub := [] }, alpha := { prvKey := 2, pub := [] },
        beta := { prvKey := 5, pub := [] } },
    calculateFirstChallangeHash := fun power => [power, 0],
    toPtauPubKeyRpr := fun b _ k _ => [k.tau.prvKey, k.alpha.prvKey, k.beta.prvKey] ++ b.drop 3,
    formatHash := fun _ => "",
    createBinFile := fun _ _ version nSections =>
      { data := [112, 116, 97, 117] ++ toLE 4 version ++ toLE 4 nSections, pos := 12 },
    headerRpr := fun power => toLE 4 1 ++ toLE 8 4 ++ toLE 4 power,
    contributionsRpr := fun cs => toLE 4 7 ++ toLE 8 4 ++ toLE 4 cs.length }

/-- An old file of 24 bytes with an empty log: the sections 2 to 6 start at the offsets 0, 6,
10, 14 and 18, which leaves room for the 3, 2, 2, 2 and 1 two-byte points of power 1. -/
def toyInput (power ceremonyPower : Nat) : Input :=
  { fdOld := { data := (List.range 24).map (fun i => i + 1), pos := 0 },
    sections := [(1, [{ p := 0, size := 0 }]), (2, [{ p := 0, size := 6 }]),
      (3, [{ p := 6, size := 4 }]), (4, [{ p := 10, size := 4 }]), (5, [{ p := 14, size := 4 }]),
      (6, [{ p := 18, size := 2 }]), (7, [{ p := 20, size := 0 }])],
    power := power, ceremonyPower := ceremonyPower, contributions := [],
    newPTauFilename := "new.ptau", name := "me", entropy := "x", stdin := [], verbose := false }

/-- The captured state at the first call of `processSection` in a toy run. -/
def toyState : PState :=
  { fdOld := (toyInput 1 1).fdOld, fdNew := openOutput toyEnv (toyInput 1 1),
    newChallangeHasher := Blake2b.create.update [1, 0],
    responseHasher := Blake2b.create.update [1, 0], console := [] }

/-- The decoder `G.fromRprLEM(buff, off)` reads the point encoded by the `sG` bytes at `off`:
its result depends on these bytes only. -/
def Grp.Local (G : Grp) : Prop :=
  ∀ (buf : Bytes) (off : Nat), G.fromRprLEM buf off = G.fromRprLEM (readAt buf off G.sG) 0

/-- A group with points of `2 * K` bytes, whose transformation and encodings are the identity
and whose decoder returns the bytes of the point. -/
def wideGrp (K : Nat) : Grp :=
  { n8 := K,
    batchApplyKey := fun b _ _ => b,
    batchLEMtoU := fun b => b,
    batchLEMtoC := fun b => b,
    fromRprLEM := fun b off => readAt b off (K * 2) }

/-- The small environment with the groups `wideGrp K`. -/
def wideEnv (K : Nat) : Env :=
  { curve := { r := 7, G1 := wideGrp K, G2 := wideGrp K },
    H := toyEnv.H, randomBytes := toyEnv.randomBytes, encodeUtf8 := toyEnv.encodeUtf8,
    createPTauKey := toyEnv.createPTauKey,
    calculateFirstChallangeHash := toyEnv.calculateFirstChallangeHash,
    toPtauPubKeyRpr := toyEnv.toPtauPubKeyRpr, formatHash := toyEnv.formatHash,
    createBinFile := toyEnv.createBinFile, headerRpr := toyEnv.headerRpr,
    contributionsRpr := toyEnv.contributionsRpr }

/-- An old file whose section 2 holds two points of `2 * K` bytes: the bytes of the first are
all 1, the bytes of the second all 2. -/
def wideInput (K : Nat) : Input :=
  { fdOld := { data := List.replicate (K * 2) 1 ++ List.replicate (K * 2) 2, pos := 0 },
    sections := [(2, [{ p := 0, size := K * 4 }])],
    power := 1, ceremonyPower := 1, contributions := [],
    newPTauFilename := "new.ptau", name := "me", entropy := "x", stdin := [], verbose := false }

/-- The captured state before a call of `processSection` on `wideInput K`, with an empty
output. -/
def wideState (K : Nat) : PState :=
  { fdOld := (wideInput K).fdOld, fdNew := { data := [], pos := 0 },
    newChallangeHasher := Blake2b.create, responseHasher := Blake2b.create, console := [] }

/-! ## Lemmas -/

theorem toLE_length (k v : Nat) : (toLE k v).length = k := by
  induction k generalizing v with
  | zero => rfl
  | succ k ih => simp [toLE, ih]

theorem fromLE_toLE (k v : Nat) : fromLE (toLE k v) = v % 256 ^ k := by
  induction k generalizing v with
  | zero => simp [toLE, fromLE, Nat.mod_one]
  | succ k ih =>
    simp only [toLE, fromLE, ih]
    rw [pow_succ, mul_comm (256 ^ k) 256, Nat.mod_mul]

theorem padTo_length (d : Bytes) (p : Nat) : (padTo d p).length = p := by
  simp only [padTo, List.length_take, List.length_append, List.length_replicate]; omega

theorem padTo_of_le (d : Bytes) (p : Nat) (h : p ≤ d.length) : padTo d p = d.take p := by
  have : p - d.length = 0 := by omega
  simp [padTo, this]

theorem writeAt_eq (d : Bytes) (p : Nat) (b : Bytes) :
    writeAt d p b = padTo d p ++ (b ++ d.drop (p + b.length)) := by
  simp [writeAt, padTo]

theorem writeAt_length (d : Bytes) (p : Nat) (b : Bytes) :
    (writeAt d p b).length = max d.length (p + b.length) := by
  rw [writeAt_eq]
  simp only [List.length_append, padTo_length, List.length_drop]
  omega

theorem take_writeAt (d : Bytes) (p : Nat) (b : Bytes) :
    (writeAt d p b).take p = padTo d p := by
  rw [writeAt_eq]
  exact List.take_left' (padTo_length d p)

theorem readAt_writeAt (d : Bytes) (p : Nat) (b : Bytes) :
    readAt (writeAt d p b) p b.length = b := by
  rw [writeAt_eq, readAt, List.drop_left' (padTo_length d p)]
  exact List.take_left' rfl

theorem padTo_writeAt (d : Bytes) (p : Nat) (a : Bytes) :
    padTo (writeAt d p a) (p + a.length) = padTo d p ++ a := by
  have hl := writeAt_length d p a
  have hz : p + a.length - (writeAt d p a).length = 0 := by omega
  rw [padTo, hz, List.replicate_zero, List.append_nil, writeAt_eq, ← List.append_assoc]
  apply List.take_left'
  simp [padTo_length]

theorem drop_writeAt (d : Bytes) (p : Nat) (a : Bytes) (k : Nat) :
    (writeAt d p a).drop (p + a.length + k) = d.drop (p + a.length + k) := by
  rw [writeAt_eq, ← List.append_assoc]
  have h : (padTo d p ++ a).length = p + a.length := by simp [padTo_length]
  rw [← List.drop_drop, List.drop_left' h, List.drop_drop]

theorem writeAt_append (d : Bytes) (p : Nat) (a b : Bytes) :
    writeAt (writeAt d p a) (p + a.length) b = writeAt d p (a ++ b) := by
  rw [writeAt_eq (writeAt d p a), padTo_writeAt, drop_writeAt, writeAt_eq d p (a ++ b)]
  simp [Nat.add_assoc]

theorem writeAt_overwrite (d : Bytes) (q : Nat) (b b1 c : Bytes) (h : b1.length = b.length) :
    writeAt (writeAt d q (b ++ c)) q b1 = writeAt d q (b1 ++ c) := by
  have hl := writeAt_length d q (b ++ c)
  have hp : padTo (writeAt d q (b ++ c)) q = padTo d q := by
    rw [padTo_of_le _ _ (by omega), take_writeAt]
  have hd : (writeAt d q (b ++ c)).drop (q + b1.length) =
      c ++ d.drop (q + (b1 ++ c).length) := by
    rw [← writeAt_append, writeAt_eq (writeAt d q b), h,
      List.drop_left' (padTo_length _ _), drop_writeAt]
    simp [Nat.add_assoc, h]
  rw [writeAt_eq (writeAt d q (b ++ c)), hp, hd, writeAt_eq d q (b1 ++ c)]
  simp

/-- Overwriting, inside a block written at `p`, a part by bytes of the same length. -/
theorem writeAt_patch (d : Bytes) (p : Nat) (a b b1 c : Bytes) (h : b1.length = b.length) :
    writeAt (writeAt d p (a ++ (b ++ c))) (p + a.length) b1 = writeAt d p (a ++ (b1 ++ c)) := by
  rw [← writeAt_append, writeAt_overwrite _ _ _ _ _ h, writeAt_append]

theorem Fd.write_nil (fd : Fd) (h : fd.pos ≤ fd.data.length) : fd.write [] none = fd := by
  cases fd with
  | mk d p =>
    simp only [Fd.write, Option.getD_none, List.length_nil, Nat.add_zero, Fd.mk.injEq, and_true]
    simp only at h
    rw [writeAt_eq, padTo_of_le _ _ h]
    simp

theorem Fd.write_write (fd : Fd) (a b : Bytes) :
    (fd.write a none).write b none = fd.write (a ++ b) none := by
  simp [Fd.write, writeAt_append, Nat.add_assoc]

theorem Fd.write_pos_le (fd : Fd) (a : Bytes) (o : Option Nat) :
    (fd.write a o).pos ≤ (fd.write a o).data.length := by
  simp only [Fd.write, writeAt_length]
  omega

theorem chunkOuts_zero (G : Grp) (r inc c f t : Nat) (inp : Bytes) :
    chunkOuts G r inc c f 0 t inp = [] := by
  cases f <;> simp [chunkOuts]

theorem forChunks_run (r : Nat) (G : Grp) (verbose : Bool) (name : String) (N : Int)
    (inc c : Nat) (hc : 1 ≤ c) :
    ∀ (fuel f2 i : Nat) (s : LoopState), (N - i).toNat < fuel → (N - i).toNat ≤ f2 →
      s.st.fdOld.pos + (N - i).toNat * G.sG ≤ s.st.fdOld.data.length →
      s.st.fdNew.pos ≤ s.st.fdNew.data.length →
      ∃ s1, forChunks N c (chunkBody r G verbose name N inc) fuel i s = Except.ok s1 ∧
        LoopPost G N i s
          (chunkOuts G r inc c f2 (N - i).toNat s.t (s.st.fdOld.data.drop s.st.fdOld.pos)) s1 := by
  intro fuel
  induction fuel with
  | zero => intro f2 i s h; omega
  | succ fuel ih =>
    intro f2 i s hfuel hf2 hold hnew
    by_cases hi : (i : Int) < N
    · -- one more chunk
      obtain ⟨f2, rfl⟩ : ∃ k, f2 = k + 1 := ⟨f2 - 1, by omega⟩
      have hn : (min (N - (i : Int)) (c : Int)).toNat = min (N - i).toNat c := by omega
      have hm0 : (N - (i : Int)).toNat ≠ 0 := by omega
      have hmul : min (N - i).toNat c * G.sG + (N - ((i + c : Nat) : Int)).toNat * G.sG
          = (N - i).toNat * G.sG := by
        rw [← Nat.add_mul]; congr 1; omega
      have hread : s.st.fdOld.pos + min (N - i).toNat c * G.sG ≤ s.st.fdOld.data.length := by
        omega
      simp only [forChunks, hi, if_true, hn, chunkBody, Fd.read, hread]
      have hrec := ih f2 (i + c)
        { t := Fr.mul r s.t (Fr.pow r inc (min (N - i).toNat c)),
          res :=
            if i = 0 then
              s.res ++ (List.range (min 2 N).toNat).map
                (fun j => G.fromRprLEM
                  (G.batchApplyKey (readAt s.st.fdOld.data s.st.fdOld.pos
                    (min (N - i).toNat c * G.sG)) s.t inc) (j * G.sG))
            else s.res,
          st := { fdOld := { data := s.st.fdOld.data,
                             pos := s.st.fdOld.pos + min (N - i).toNat c * G.sG },
                  fdNew := s.st.fdNew.write (G.batchApplyKey (readAt s.st.fdOld.data
                    s.st.fdOld.pos (min (N - i).toNat c * G.sG)) s.t inc) none,
                  newChallangeHasher := s.st.newChallangeHasher.update (G.batchLEMtoU
                    (G.batchApplyKey (readAt s.st.fdOld.data s.st.fdOld.pos
                      (min (N - i).toNat c * G.sG)) s.t inc)),
                  responseHasher := s.st.responseHasher.update (G.batchLEMtoC
                    (G.batchApplyKey (readAt s.st.fdOld.data s.st.fdOld.pos
                      (min (N - i).toNat c * G.sG)) s.t inc)),
                  console :=
                    if (verbose && i != 0) = true then
                      s.st.console ++ [name ++ ": " ++ toString i]
                    else s.st.console } }
        (by omega) (by omega) (by simp only; omega) (Fd.write_pos_le _ _ _)
      obtain ⟨s1, hs1, hp1, hp2, hp3, hp4, hp5⟩ := hrec
      refine ⟨s1, hs1, ?_⟩
      have hm' : (N - ((i + c : Nat) : Int)).toNat = (N - (i : Int)).toNat - min (N - i).toNat c := by
        omega
      simp only [hm'] at hp1 hp2 hp3 hp4 hp5
      have hic : i + c ≠ 0 := by omega
      simp only [chunkOuts, hm0, if_false, readAt, List.drop_drop] at hp1 hp2 hp3 hp4 hp5 ⊢
      refine ⟨?_, ?_, ?_, ?_, ?_⟩
      · rw [hp1, Fd.write_write]; simp [readAt]
      · rw [hp2]; simp only [Fd.mk.injEq, true_and]
        rw [hm'] at hmul; omega
      · rw [hp3]; simp [Blake2b.update, readAt]
      · rw [hp4]; simp [Blake2b.update, readAt]
      · rw [hp5]; simp [hic, readAt]
    · -- the loop is over
      have hm0 : (N - (i : Int)).toNat = 0 := by omega
      refine ⟨s, by simp [forChunks, hi], ?_⟩
      rw [hm0, chunkOuts_zero]
      unfold LoopPost
      rw [hm0]
      refine ⟨?_, ?_, ?_, ?_, ?_⟩
      · simp [Fd.write_nil _ hnew]
      · simp
      · simp [Blake2b.update]
      · simp [Blake2b.update]
      · by_cases h0 : i = 0
        · have : (min 2 N).toNat = 0 := by omega
          simp [this]
        · simp [h0]

theorem sectionRpr_length (sectionId : Nat) (payload : Bytes) :
    (sectionRpr sectionId payload).length = 12 + payload.length := by
  simp only [sectionRpr, List.length_append, toLE_length]
  omega

theorem write_sectionRpr (fd : Fd) (sectionId : Nat) (payload : Bytes) :
    ({ data := writeAt fd.data fd.pos (sectionRpr sectionId payload),
       pos := fd.pos + 12 + payload.length } : Fd) = fd.write (sectionRpr sectionId payload) none := by
  simp only [Fd.write, Option.getD_none, sectionRpr_length, Fd.mk.injEq, true_and]
  omega

theorem processSection_run (env : Env) (inp : Input) (fuel sectionId : Nat) (groupName : String)
    (N : Int) (first inc : Nat) (sectionName : String) (st : PState) (entry : SectionEntry)
    (G : Grp) (hsec : (inp.section sectionId).bind List.head? = some entry)
    (hG : env.curve.group groupName = some G) (hc : 1 ≤ chunkSize G.sG)
    (hfuel : N.toNat < fuel) (hold : entry.p + N.toNat * G.sG ≤ st.fdOld.data.length) :
    ∃ res st1,
      processSection env inp fuel sectionId groupName N first inc sectionName st
        = Except.ok (res, st1) ∧
      SectionPost G sectionId N entry.p st
        (chunkOuts G env.curve.r inc (chunkSize G.sG) N.toNat N.toNat first
          (st.fdOld.data.drop entry.p)) res st1 := by
  have hrun := forChunks_run env.curve.r G inp.verbose sectionName N inc (chunkSize G.sG) hc
    fuel N.toNat 0
    { t := first, res := [],
      st := { fdOld := { data := st.fdOld.data, pos := entry.p },
              fdNew := (st.fdNew.writeULE32 sectionId none).writeULE64 0 none,
              newChallangeHasher := st.newChallangeHasher,
              responseHasher := st.responseHasher, console := st.console } }
    (by simpa using hfuel) (by simp) (by simpa using hold) (Fd.write_pos_le _ _ _)
  obtain ⟨s1, hs1, hp1, hp2, hp3, hp4, hp5⟩ := hrun
  simp only [Nat.cast_zero, sub_zero] at hp1 hp2 hp3 hp4 hp5
  refine ⟨s1.res, sectionClose ((st.fdNew.writeULE32 sectionId none).pos) s1.st, ?_, ?_⟩
  · simp only [processSection, sectionOpen, hsec, hG, hs1]
  · refine ⟨?_, hp2, hp3, hp4, ?_⟩
    · rw [← write_sectionRpr]
      simp only [sectionClose, hp1, Fd.writeULE32, Fd.writeULE64, Fd.write_write]
      generalize (chunkOuts G env.curve.r inc (chunkSize G.sG) N.toNat N.toNat first
        (st.fdOld.data.drop entry.p)).flatten = P
      simp only [Fd.write, Option.getD_none, Option.getD_some, List.length_append, toLE_length,
        sectionRpr, Fd.mk.injEq]
      constructor
      · have e : st.fdNew.pos + (4 + 8 + P.length) - (st.fdNew.pos + 4) - 8 = P.length := by
          omega
        rw [e]
        have h4 : st.fdNew.pos + 4 = st.fdNew.pos + (toLE 4 sectionId).length := by
          rw [toLE_length]
        rw [h4, List.append_assoc]
        exact writeAt_patch _ _ _ _ _ _ (by simp [toLE_length])
      · omega
    · simpa using hp5

theorem chunkOuts_length (G : Grp) (hlen : G.LengthPreserving) (r inc c : Nat) (hc : 1 ≤ c) :
    ∀ (f m t : Nat) (inp : Bytes), m ≤ f → m * G.sG ≤ inp.length →
      (chunkOuts G r inc c f m t inp).flatten.length = m * G.sG ∧
      ∀ o ∈ chunkOuts G r inc c f m t inp, G.sG ∣ o.length := by
  intro f
  induction f with
  | zero =>
    intro m t inp hm _
    have : m = 0 := by omega
    subst this
    simp [chunkOuts]
  | succ f ih =>
    intro m t inp hm hin
    by_cases h0 : m = 0
    · subst h0; simp [chunkOuts]
    · have hmn : min m c * G.sG + (m - min m c) * G.sG = m * G.sG := by
        rw [← Nat.add_mul]; congr 1; omega
      have hrec := ih (m - min m c) (Fr.mul r t (Fr.pow r inc (min m c)))
        (inp.drop (min m c * G.sG)) (by omega) (by rw [List.length_drop]; omega)
      have hl : (G.batchApplyKey (inp.take (min m c * G.sG)) t inc).length = min m c * G.sG := by
        rw [hlen, List.length_take]; omega
      simp only [chunkOuts, h0, if_false, List.flatten_cons, List.length_append, hl, hrec.1,
        List.mem_cons]
      refine ⟨hmn, ?_⟩
      intro o ho
      rcases ho with rfl | ho
      · rw [hl]; exact Dvd.intro_left _ rfl
      · exact hrec.2 o ho

theorem additive_nil (G : Grp) (f : Bytes → Bytes) (h : G.Additive f) : f [] = [] := by
  have e := h [] [] (by simp)
  have l := congrArg List.length e
  simp only [List.append_nil, List.length_append] at l
  exact List.length_eq_zero.mp (by omega)

theorem additive_flatten (G : Grp) (f : Bytes → Bytes) (h : G.Additive f) (outs : List Bytes)
    (hd : ∀ o ∈ outs, G.sG ∣ o.length) : (outs.map f).flatten = f outs.flatten := by
  induction outs with
  | nil => simp [additive_nil G f h]
  | cons o rest ih =>
    simp only [List.map_cons, List.flatten_cons]
    rw [h o _ (hd o (List.mem_cons_self _ _)), ih (fun x hx => hd x (List.mem_cons_of_mem _ hx))]

theorem flatten_length_uniform (sG : Nat) (pts : List Bytes) (h : ∀ p ∈ pts, p.length = sG) :
    pts.flatten.length = pts.length * sG := by
  induction pts with
  | nil => simp
  | cons p rest ih =>
    simp only [List.flatten_cons, List.length_append, List.length_cons]
    rw [h p (List.mem_cons_self _ _), ih (fun x hx => h x (List.mem_cons_of_mem _ hx))]
    ring

theorem take_flatten_uniform (sG : Nat) (pts : List Bytes) (tail : Bytes) (n : Nat)
    (h : ∀ p ∈ pts, p.length = sG) (hn : n ≤ pts.length) :
    (pts.flatten ++ tail).take (n * sG) = (pts.take n).flatten ∧
    (pts.flatten ++ tail).drop (n * sG) = (pts.drop n).flatten ++ tail := by
  have hl : (pts.take n).flatten.length = n * sG := by
    rw [flatten_length_uniform sG _ (fun p hp => h p (List.mem_of_mem_take hp)),
      List.length_take, Nat.min_eq_left hn]
  have hs : pts.flatten ++ tail = (pts.take n).flatten ++ ((pts.drop n).flatten ++ tail) := by
    rw [← List.append_assoc, ← List.flatten_append, List.take_append_drop]
  rw [hs]
  exact ⟨List.take_left' hl, List.drop_left' hl⟩

theorem scalar_step (r first inc t k j : Nat) (ht : t % r = (first * inc ^ k) % r) :
    Fr.mul r t (Fr.pow r inc j) = (first * inc ^ (k + j)) % r := by
  unfold Fr.mul Fr.pow
  rw [Nat.mul_mod, Nat.mod_mod, ht, ← Nat.mul_mod, pow_add, Nat.mul_assoc]

theorem chunkOuts_pointwise (G : Grp) (r : Nat) (mulPt : Bytes → Nat → Bytes)
    (hspec : G.ApplyKeySpec r mulPt) (first inc c : Nat) (hc : 1 ≤ c) :
    ∀ (f m t : Nat) (pts : List Bytes) (tail : Bytes) (k : Nat), pts.length = m → m ≤ f →
      (∀ p ∈ pts, p.length = G.sG) → t % r = (first * inc ^ k) % r →
      (chunkOuts G r inc c f m t (pts.flatten ++ tail)).flatten =
        ((List.range m).map
          (fun j => mulPt (pts.getD j []) ((first * inc ^ (k + j)) % r))).flatten := by
  intro f
  induction f with
  | zero =>
    intro m t pts tail k hm hf _ _
    have : m = 0 := by omega
    subst this
    simp [chunkOuts]
  | succ f ih =>
    intro m t pts tail k hm hf hpts ht
    by_cases h0 : m = 0
    · subst h0; simp [chunkOuts]
    · have hn : min m c ≤ pts.length := by omega
      obtain ⟨htake, hdrop⟩ := take_flatten_uniform G.sG pts tail (min m c) hpts hn
      have hrec := ih (m - min m c) (Fr.mul r t (Fr.pow r inc (min m c))) (pts.drop (min m c))
        tail (k + min m c) (by rw [List.length_drop]; omega) (by omega)
        (fun p hp => hpts p (List.mem_of_mem_drop hp))
        (by rw [scalar_step r first inc t k _ ht, Nat.mod_mod])
      have hsplit : m = min m c + (m - min m c) := by omega
      simp only [chunkOuts, h0, if_false, List.flatten_cons, htake, hdrop, hrec]
      rw [hspec _ _ _ (fun p hp => hpts p (List.mem_of_mem_take hp))]
      conv_rhs => rw [hsplit, List.range_add, List.map_append, List.flatten_append]
      congr 1
      · congr 1
        rw [List.length_take, Nat.min_eq_left hn]
        apply List.map_congr_left
        intro j hj
        have hj' : j < min m c := List.mem_range.mp hj
        rw [scalar_step r first inc t k j ht]
        congr 1
        simp [List.getD_eq_getElem?_getD, List.getElem?_take, hj']
      · congr 1
        rw [List.map_map]
        apply List.map_congr_left
        intro j _
        simp [List.getD_eq_getElem?_getD, Nat.add_assoc]

theorem jsShl_20 : jsShl 1 20 = 1048576 := by decide

theorem chunkSize_pos (sG : Nat) (h1 : 1 ≤ sG) (h2 : sG ≤ 2 ^ 20) : 1 ≤ chunkSize sG := by
  unfold chunkSize
  rw [jsShl_20]
  exact (Nat.one_le_div_iff (by omega)).mpr h2

theorem toInt32_lt (x : Int) : toInt32 x < 2 ^ 31 ∧ -(2 ^ 31) ≤ toInt32 x := by
  unfold toInt32
  have h1 : 0 ≤ x % 2 ^ 32 := Int.emod_nonneg _ (by norm_num)
  have h2 : x % 2 ^ 32 < 2 ^ 32 := Int.emod_lt_of_pos _ (by norm_num)
  split <;> omega

theorem nPoints_lt (power id : Nat) : (nPoints power id).toNat < 2 ^ 32 := by
  have h := (toInt32_lt (toInt32 1 * 2 ^ (power % 32))).1
  unfold nPoints
  split <;> first | omega | (simp only [jsShl]; omega)

theorem contribute_run (env : Env) (inp : Input) (h : Accepted env inp) (fuel : Nat)
    (hfuel : 2 ^ 32 ≤ fuel) :
    ∃ last st6,
      lastChallangeHash env inp = JSVal.bytes last ∧
      contribute env inp fuel = Outcome.done
        (finish env inp (runRecord env inp) (runKey env inp)
          (secFirstPoints env inp (runKey env inp) 2) (secFirstPoints env inp (runKey env inp) 3)
          (secFirstPoints env inp (runKey env inp) 4) (secFirstPoints env inp (runKey env inp) 5)
          (secFirstPoints env inp (runKey env inp) 6) st6) ∧
      st6.fdNew = { data := writeAt (openOutput env inp).data (openOutput env inp).pos
                      (sectionsRpr env inp),
                    pos := (openOutput env inp).pos + (sectionsRpr env inp).length } ∧
      st6.newChallangeHasher = Blake2b.mk (last ++
        hashStream env inp env.curve.G1.batchLEMtoU env.curve.G2.batchLEMtoU) ∧
      st6.responseHasher = Blake2b.mk (last ++
        hashStream env inp env.curve.G1.batchLEMtoC env.curve.G2.batchLEMtoC) := by
  obtain ⟨entropy, hent⟩ := h.entropy
  obtain ⟨last, hlast⟩ := h.challenge
  obtain ⟨e2, hs2, hb2⟩ := h.present 2 (by simp)
  obtain ⟨e3, hs3, hb3⟩ := h.present 3 (by simp)
  obtain ⟨e4, hs4, hb4⟩ := h.present 4 (by simp)
  obtain ⟨e5, hs5, hb5⟩ := h.present 5 (by simp)
  obtain ⟨e6, hs6, hb6⟩ := h.present 6 (by simp)
  have hc1 := chunkSize_pos _ h.size1.1 h.size1.2
  have hc2 := chunkSize_pos _ h.size2.1 h.size2.2
  have hG1 : env.curve.group "G1" = some env.curve.G1 := by simp [Curve.group]
  have hG2 : env.curve.group "G2" = some env.curve.G2 := by simp [Curve.group]
  have hkey : createKey env (JSVal.bytes last) entropy = runKey env inp := by
    simp [runKey, hlast, hent]
  have hf := fun id => Nat.lt_of_lt_of_le (nPoints_lt inp.power id) hfuel
  -- section 2
  obtain ⟨fp2, st2, hr2, hq2⟩ := processSection_run env inp fuel 2 "G1"
    (jsShl 1 inp.power * 2 - 1) (Fr.e env.curve.r 1) (runKey env inp).tau.prvKey "tauG1"
    { fdOld := inp.fdOld, fdNew := openOutput env inp,
      newChallangeHasher := Blake2b.create.update last,
      responseHasher := Blake2b.create.update last,
      console := (if (inp.section 12).isSome then
        ["WARNING: Contributing into a fle that has phase2 calculated. You will have to prepare phase2 again."]
      else []) } e2 env.curve.G1 hs2 hG1 hc1 (hf 2) hb2
  obtain ⟨hq2a, hq2b, hq2c, hq2d, hq2e⟩ := hq2
  have hd2 : st2.fdOld.data = inp.fdOld.data := by rw [hq2b]
  obtain ⟨fp3, st3, hr3, hq3⟩ := processSection_run env inp fuel 3 "G2"
    (jsShl 1 inp.power) (Fr.e env.curve.r 1) (runKey env inp).tau.prvKey "tauG2"
    st2 e3 env.curve.G2 hs3 hG2 hc2 (hf 3) (by rw [hd2]; exact hb3)
  obtain ⟨hq3a, hq3b, hq3c, hq3d, hq3e⟩ := hq3
  have hd3 : st3.fdOld.data = inp.fdOld.data := by rw [hq3b]; exact hd2
  obtain ⟨fp4, st4, hr4, hq4⟩ := processSection_run env inp fuel 4 "G1"
    (jsShl 1 inp.power) (runKey env inp).alpha.prvKey (runKey env inp).tau.prvKey "alphaTauG1"
    st3 e4 env.curve.G1 hs4 hG1 hc1 (hf 4) (by rw [hd3]; exact hb4)
  obtain ⟨hq4a, hq4b, hq4c, hq4d, hq4e⟩ := hq4
  have hd4 : st4.fdOld.data = inp.fdOld.data := by rw [hq4b]; exact hd3
  obtain ⟨fp5, st5, hr5, hq5⟩ := processSection_run env inp fuel 5 "G1"
    (jsShl 1 inp.power) (runKey env inp).beta.prvKey (runKey env inp).tau.prvKey "betaTauG1"
    st4 e5 env.curve.G1 hs5 hG1 hc1 (hf 5) (by rw [hd4]; exact hb5)
  obtain ⟨hq5a, hq5b, hq5c, hq5d, hq5e⟩ := hq5
  have hd5 : st5.fdOld.data = inp.fdOld.data := by rw [hq5b]; exact hd4
  obtain ⟨fp6, st6, hr6, hq6⟩ := processSection_run env inp fuel 6 "G2"
    1 (runKey env inp).beta.prvKey (runKey env inp).tau.prvKey "betaTauG2"
    st5 e6 env.curve.G2 hs6 hG2 hc2 (hf 6) (by rw [hd5]; exact hb6)
  obtain ⟨hq6a, hq6b, hq6c, hq6d, hq6e⟩ := hq6
  have hd6 : st6.fdOld.data = inp.fdOld.data := by rw [hq6b]; exact hd5
  have hp2 : sectionPos inp 2 = e2.p := by simp [sectionPos, hs2]
  have hp3 : sectionPos inp 3 = e3.p := by simp [sectionPos, hs3]
  have hp4 : sectionPos inp 4 = e4.p := by simp [sectionPos, hs4]
  have hp5 : sectionPos inp 5 = e5.p := by simp [sectionPos, hs5]
  have hp6 : sectionPos inp 6 = e6.p := by simp [sectionPos, hs6]
  refine ⟨last, st6, hlast, ?_, ?_, ?_, ?_⟩
  · have hne : (inp.power != inp.ceremonyPower) = false := by simp [h.power_eq]
    simp only [contribute, hne, hent, hlast, hkey, Bool.false_eq_true, if_false, hr2, hr3, hr4,
      hr5, hr6, runRecord]
    simp only [hq2e, hq3e, hq4e, hq5e, hq6e, hq2b, hq3b, hq4b, hq5b, secFirstPoints, secOuts,
      nPoints, secGroup, secFirst, hp2, hp3, hp4, hp5, hp6]
  · rw [hq6a, hq5a, hq4a, hq3a, hq2a]
    simp only [Fd.write_write, hd2, hd3, hd4, hd5, List.append_assoc]
    simp only [Fd.write, Option.getD_none, sectionsRpr, secPayload, secOuts, nPoints, secGroup,
      secFirst, hp2, hp3, hp4, hp5, hp6]
  · rw [hq6c, hq5c, hq4c, hq3c, hq2c]
    simp only [Blake2b.update, Blake2b.create, List.nil_append, List.append_assoc, hashStream,
      secOuts, nPoints, secGroup, secFirst, hp2, hp3, hp4, hp5, hp6, hd2, hd3, hd4, hd5]
  · rw [hq6d, hq5d, hq4d, hq3d, hq2d]
    simp only [Blake2b.update, Blake2b.create, List.nil_append, List.append_assoc, hashStream,
      secOuts, nPoints, secGroup, secFirst, hp2, hp3, hp4, hp5, hp6, hd2, hd3, hd4, hd5]

theorem toyApplyFrom_spec (r t inc : Nat) :
    ∀ (pts : List Bytes) (j : Nat), (∀ p ∈ pts, p.length = 2) →
      toyApplyFrom r t inc j pts.flatten =
        ((List.range pts.length).map
          (fun i => toyMulPt (pts.getD i []) (Fr.mul r t (Fr.pow r inc (j + i))))).flatten := by
  intro pts
  induction pts with
  | nil => intro j _; simp [toyApplyFrom]
  | cons p rest ih =>
    intro j h
    have hp := h p (List.mem_cons_self _ _)
    match p, hp with
    | [x, y], _ =>
      have hrest := ih (j + 1) (fun q hq => h q (List.mem_cons_of_mem _ hq))
      show toyApplyFrom r t inc j (x :: y :: rest.flatten) = _
      rw [toyApplyFrom, hrest]
      simp only [List.length_cons, List.range_succ_eq_map, List.map_cons, List.map_map,
        List.flatten_cons, toyMulPt, List.map_nil, List.getD_cons_zero, Nat.add_zero,
        List.cons_append, List.nil_append, List.cons.injEq, true_and]
      congr 1
      apply List.map_congr_left
      intro i _
      simp [toyMulPt, Nat.add_assoc, Nat.add_comm 1 i]

theorem toyGrp_spec (r : Nat) : (toyGrp r).ApplyKeySpec r toyMulPt := by
  intro pts t inc h
  have := toyApplyFrom_spec r t inc pts 0 (by simpa [Grp.sG, toyGrp] using h)
  simpa [toyGrp] using this

theorem readAt_writeAt_mid (d : Bytes) (p : Nat) (a b c : Bytes) :
    readAt (writeAt d p (a ++ (b ++ c))) (p + a.length) b.length = b := by
  have h : (padTo d p ++ a).length = p + a.length := by simp [padTo_length]
  rw [writeAt_eq, readAt, List.append_assoc a, ← List.append_assoc (padTo d p),
    List.drop_left' h, List.append_assoc b]
  exact List.take_left' rfl

theorem readAt_writeAt_head (d : Bytes) (p : Nat) (b c : Bytes) :
    readAt (writeAt d p (b ++ c)) p b.length = b := by
  have := readAt_writeAt_mid d p [] b c
  simpa using this

theorem getElem?_writeAt_before (d : Bytes) (p : Nat) (b : Bytes) (k : Nat) (hk : k < p)
    (hd : k < d.length) : (writeAt d p b)[k]? = d[k]? := by
  rw [writeAt_eq, List.getElem?_append_left (by rw [padTo_length]; exact hk), padTo,
    List.getElem?_take_of_lt hk, List.getElem?_append_left hd]

theorem ceil_div (N c : Nat) (hc : 1 ≤ c) :
    (N + c - 1) / c = N / c + (if N % c = 0 then 0 else 1) := by
  have hN := Nat.div_add_mod N c
  have hr := Nat.mod_lt N (show 0 < c by omega)
  generalize N / c = q at hN ⊢
  generalize N % c = r at hN hr ⊢
  subst hN
  by_cases h0 : r = 0
  · subst h0
    have e : c * q + 0 + c - 1 = c * q + (c - 1) := by omega
    rw [e, Nat.mul_add_div (by omega), Nat.div_eq_of_lt (by omega)]
    simp
  · have e : c * q + r + c - 1 = c * q + (r + c - 1) := by omega
    have h1 : (r + c - 1) / c = 1 := Nat.div_eq_of_lt_le (by omega) (by omega)
    rw [e, Nat.mul_add_div (by omega), h1]
    simp [h0]

theorem forChunks_trace (N c : Nat) (hc : 1 ≤ c) :
    ∀ (fuel i : Nat) (tr : List Nat), (N - i + c - 1) / c < fuel →
      forChunks (N : Int) c (fun _ n (tr : List Nat) => Except.ok (tr ++ [n])) fuel i tr =
        Except.ok (tr ++ (List.replicate ((N - i) / c) c ++
          (if (N - i) % c = 0 then [] else [(N - i) % c]))) := by
  intro fuel
  induction fuel with
  | zero => intro i tr h; exact absurd h (Nat.not_lt_zero _)
  | succ fuel ih =>
    intro i tr hfuel
    by_cases hi : i < N
    · have hi' : (i : Int) < (N : Int) := by omega
      have hn : (min ((N : Int) - (i : Int)) (c : Int)).toNat = min (N - i) c := by omega
      simp only [forChunks, hi', if_true, hn]
      by_cases hfull : c ≤ N - i
      · have hsplit : N - i = (N - (i + c)) + c := by omega
        have hdiv : (N - i) / c = (N - (i + c)) / c + 1 := by
          rw [hsplit, Nat.add_div_right _ (by omega)]
        have hmod : (N - i) % c = (N - (i + c)) % c := by
          rw [hsplit, Nat.add_mod_right]
        have hf : (N - (i + c) + c - 1) / c < fuel := by
          have e : (N - i + c - 1) = (N - (i + c) + c - 1) + c := by omega
          rw [e, Nat.add_div_right _ (by omega)] at hfuel
          omega
        rw [ih (i + c) _ hf, hdiv, hmod, Nat.min_eq_right hfull, List.replicate_succ]
        simp
      · have hz : N - (i + c) = 0 := by omega
        have hdiv : (N - i) / c = 0 := Nat.div_eq_of_lt (by omega)
        have hmod : (N - i) % c = N - i := Nat.mod_eq_of_lt (by omega)
        have hpos : 0 < (N - i + c - 1) / c := Nat.div_pos (by omega) (by omega)
        have hf : (N - (i + c) + c - 1) / c < fuel := by
          rw [hz, Nat.zero_add, Nat.div_eq_of_lt (by omega)]
          omega
        have hne : N - i ≠ 0 := by omega
        rw [ih (i + c) _ hf, hz, hdiv, hmod, Nat.min_eq_left (by omega)]
        simp [hne]
    · have hi' : ¬ (i : Int) < (N : Int) := by omega
      have hz : N - i = 0 := by omega
      simp [forChunks, hi', hz]

theorem forChunks_exhaust (N c : Nat) (hc : 1 ≤ c) :
    ∀ (fuel i : Nat) (tr : List Nat), fuel ≤ (N - i + c - 1) / c →
      ∃ tr1, forChunks (N : Int) c (fun _ n (tr : List Nat) => Except.ok (tr ++ [n])) fuel i tr =
        Except.error (Err.outOfFuel, tr1) := by
  intro fuel
  induction fuel with
  | zero => intro i tr _; exact ⟨tr, rfl⟩
  | succ fuel ih =>
    intro i tr hfuel
    have hi : i < N := by
      by_contra hcon
      have hz : N - i = 0 := by omega
      rw [hz, Nat.zero_add, Nat.div_eq_of_lt (by omega)] at hfuel
      omega
    have hi' : (i : Int) < (N : Int) := by omega
    simp only [forChunks, hi', if_true]
    apply ih
    by_cases hfull : c ≤ N - i
    · have e : (N - i + c - 1) = (N - (i + c) + c - 1) + c := by omega
      rw [e, Nat.add_div_right _ (by omega)] at hfuel
      omega
    · have h2 : (N - i + c - 1) / c < 2 := (Nat.div_lt_iff_lt_mul (by omega)).mpr (by omega)
      have hfuel0 : fuel = 0 := by omega
      rw [hfuel0]
      exact Nat.zero_le _

theorem drop_writeAt_self (d : Bytes) (p : Nat) (b : Bytes) :
    (writeAt d p b).drop p = b ++ d.drop (p + b.length) := by
  rw [writeAt_eq, List.drop_left' (padTo_length d p)]

theorem readSections_cons (data : Bytes) (k p sectionId : Nat) (payload tail : Bytes)
    (h : data.drop p = sectionRpr sectionId payload ++ tail) (hid : sectionId < 2 ^ 32)
    (hl : payload.length < 2 ^ 64) :
    readSections data (k + 1) p =
      (sectionId, payload.length, payload) :: readSections data k (p + 12 + payload.length) ∧
    data.drop (p + 12 + payload.length) = tail := by
  have h4 : readAt data p 4 = toLE 4 sectionId := by
    rw [readAt, h, sectionRpr, List.append_assoc]
    exact List.take_left' (toLE_length _ _)
  have h8 : readAt data (p + 4) 8 = toLE 8 payload.length := by
    rw [readAt, ← List.drop_drop, h, sectionRpr, List.append_assoc,
      List.drop_left' (toLE_length _ _), List.append_assoc]
    exact List.take_left' (toLE_length _ _)
  have hd : data.drop (p + 12) = payload ++ tail := by
    have e : (toLE 4 sectionId ++ toLE 8 payload.length).length = 12 := by
      simp [toLE_length]
    rw [← List.drop_drop, h, sectionRpr, ← List.append_assoc, List.append_assoc,
      List.drop_left' e]
  have hp : readAt data (p + 12) payload.length = payload := by
    rw [readAt, hd]
    exact List.take_left' rfl
  have e4 : fromLE (toLE 4 sectionId) = sectionId := by
    rw [fromLE_toLE]; exact Nat.mod_eq_of_lt (by norm_num; exact hid)
  have e8 : fromLE (toLE 8 payload.length) = payload.length := by
    rw [fromLE_toLE]; exact Nat.mod_eq_of_lt (by norm_num; exact hl)
  constructor
  · simp only [readSections, h4, h8, e4, e8, hp]
  · rw [← List.drop_drop, hd]
    exact List.drop_left' rfl

theorem readSections_five (data : Bytes) (p : Nat) (P2 P3 P4 P5 P6 tail : Bytes)
    (h : data.drop p = sectionRpr 2 P2 ++ (sectionRpr 3 P3 ++ (sectionRpr 4 P4 ++
      (sectionRpr 5 P5 ++ sectionRpr 6 P6))) ++ tail)
    (h2 : P2.length < 2 ^ 64) (h3 : P3.length < 2 ^ 64) (h4 : P4.length < 2 ^ 64)
    (h5 : P5.length < 2 ^ 64) (h6 : P6.length < 2 ^ 64) :
    readSections data 5 p = [(2, P2.length, P2), (3, P3.length, P3), (4, P4.length, P4),
      (5, P5.length, P5), (6, P6.length, P6)] := by
  simp only [List.append_assoc] at h
  obtain ⟨r2, d2⟩ := readSections_cons data 4 p 2 P2 _ h (by norm_num) h2
  obtain ⟨r3, d3⟩ := readSections_cons data 3 _ 3 P3 _ d2 (by norm_num) h3
  obtain ⟨r4, d4⟩ := readSections_cons data 2 _ 4 P4 _ d3 (by norm_num) h4
  obtain ⟨r5, d5⟩ := readSections_cons data 1 _ 5 P5 _ d4 (by norm_num) h5
  obtain ⟨r6, -⟩ := readSections_cons data 0 _ 6 P6 _ d5 (by norm_num) h6
  rw [r2, r3, r4, r5, r6]
  rfl

theorem secPayload_length (env : Env) (inp : Input) (key : Key) (h : Accepted env inp)
    (hl1 : env.curve.G1.LengthPreserving) (hl2 : env.curve.G2.LengthPreserving)
    (id : Nat) (hid : id ∈ [2, 3, 4, 5, 6]) :
    (secPayload env inp key id).length
        = (nPoints inp.power id).toNat * (secGroup env.curve id).sG ∧
      (secPayload env inp key id).length < 2 ^ 64 ∧
      ∀ o ∈ secOuts env inp key id, (secGroup env.curve id).sG ∣ o.length := by
  obtain ⟨e, hs, hb⟩ := h.present id hid
  have hp : sectionPos inp id = e.p := by simp [sectionPos, hs]
  have hG : (secGroup env.curve id).LengthPreserving ∧ 1 ≤ (secGroup env.curve id).sG
      ∧ (secGroup env.curve id).sG ≤ 2 ^ 20 := by
    simp only [List.mem_cons, List.mem_singleton, List.not_mem_nil, or_false] at hid
    rcases hid with rfl | rfl | rfl | rfl | rfl
    · exact ⟨hl1, h.size1⟩
    · exact ⟨hl2, h.size2⟩
    · exact ⟨hl1, h.size1⟩
    · exact ⟨hl1, h.size1⟩
    · exact ⟨hl2, h.size2⟩
  have hlen := chunkOuts_length (secGroup env.curve id) hG.1 env.curve.r key.tau.prvKey
    (chunkSize (secGroup env.curve id).sG) (chunkSize_pos _ hG.2.1 hG.2.2)
    (nPoints inp.power id).toNat (nPoints inp.power id).toNat (secFirst env.curve.r key id)
    (inp.fdOld.data.drop (sectionPos inp id)) (le_refl _)
    (by rw [List.length_drop, hp]; omega)
  refine ⟨hlen.1, ?_, hlen.2⟩
  unfold secPayload secOuts
  rw [hlen.1]
  have hn := nPoints_lt inp.power id
  calc (nPoints inp.power id).toNat * (secGroup env.curve id).sG
      ≤ 2 ^ 32 * 2 ^ 20 := Nat.mul_le_mul (Nat.le_of_lt hn) hG.2.2
    _ < 2 ^ 64 := by norm_num

theorem hashStream_eq (env : Env) (inp : Input) (h : Accepted env inp)
    (hl1 : env.curve.G1.LengthPreserving) (hl2 : env.curve.G2.LengthPreserving)
    (e1 e2 : Bytes → Bytes) (ha1 : env.curve.G1.Additive e1) (ha2 : env.curve.G2.Additive e2) :
    hashStream env inp e1 e2 =
      e1 (secPayload env inp (runKey env inp) 2) ++ (e2 (secPayload env inp (runKey env inp) 3) ++
      (e1 (secPayload env inp (runKey env inp) 4) ++ (e1 (secPayload env inp (runKey env inp) 5) ++
      e2 (secPayload env inp (runKey env inp) 6)))) := by
  unfold hashStream secPayload
  rw [additive_flatten env.curve.G1 e1 ha1 _
      (secPayload_length env inp (runKey env inp) h hl1 hl2 2 (by simp)).2.2,
    additive_flatten env.curve.G2 e2 ha2 _
      (secPayload_length env inp (runKey env inp) h hl1 hl2 3 (by simp)).2.2,
    additive_flatten env.curve.G1 e1 ha1 _
      (secPayload_length env inp (runKey env inp) h hl1 hl2 4 (by simp)).2.2,
    additive_flatten env.curve.G1 e1 ha1 _
      (secPayload_length env inp (runKey env inp) h hl1 hl2 5 (by simp)).2.2,
    additive_flatten env.curve.G2 e2 ha2 _
      (secPayload_length env inp (runKey env inp) h hl1 hl2 6 (by simp)).2.2]

theorem finishRecord_fields (env : Env) (inp : Input) (fp2 fp3 fp4 fp5 fp6 : List Bytes)
    (st : PState) :
    (finishRecord env (runRecord env inp) fp2 fp3 fp4 fp5 fp6 st).fields =
      [("name", JSVal.str inp.name), ("type", JSVal.num 0), ("key", JSVal.key (runKey env inp)),
       ("tauG1", pointAt fp2 1), ("tauG2", pointAt fp3 1), ("alphaG1", pointAt fp4 0),
       ("betaG1", pointAt fp5 0), ("betaG2", pointAt fp6 0),
       ("nextChallange", JSVal.bytes (st.newChallangeHasher.digest env.H)),
       ("partialHash", JSVal.bytes st.responseHasher.getPartialHash)] := by
  simp [finishRecord, runRecord, Obj.set, setField]

theorem finish_output (env : Env) (inp : Input) (cur1 : Obj) (key : Key)
    (fp2 fp3 fp4 fp5 fp6 : List Bytes) (st : PState)
    (hfd : st.fdNew = { data := writeAt (openOutput env inp).data (openOutput env inp).pos
                          (sectionsRpr env inp),
                        pos := (openOutput env inp).pos + (sectionsRpr env inp).length }) :
    (finish env inp cur1 key fp2 fp3 fp4 fp5 fp6 st).fdNew =
      (env.createBinFile inp.newPTauFilename "ptau" 1 7).write
        (env.headerRpr inp.power ++ (sectionsRpr env inp ++
          env.contributionsRpr (finish env inp cur1 key fp2 fp3 fp4 fp5 fp6 st).contributions))
        none := by
  have h1 : st.fdNew = (openOutput env inp).write (sectionsRpr env inp) none := by
    rw [hfd]; simp [Fd.write]
  simp only [finish, Env.writeContributions, h1, openOutput, Env.writePTauHeader,
    Fd.write_write, List.append_assoc]

theorem contribute_sections (env : Env) (inp : Input) (h : Accepted env inp)
    (hl1 : env.curve.G1.LengthPreserving) (hl2 : env.curve.G2.LengthPreserving)
    (cur1 : Obj) (key : Key) (fp2 fp3 fp4 fp5 fp6 : List Bytes) (st : PState)
    (hfd : st.fdNew = { data := writeAt (openOutput env inp).data (openOutput env inp).pos
                          (sectionsRpr env inp),
                        pos := (openOutput env inp).pos + (sectionsRpr env inp).length }) :
    readSections (finish env inp cur1 key fp2 fp3 fp4 fp5 fp6 st).fdNew.data 5
        (openOutput env inp).pos =
      [(2, (secPayload env inp (runKey env inp) 2).length, secPayload env inp (runKey env inp) 2),
       (3, (secPayload env inp (runKey env inp) 3).length, secPayload env inp (runKey env inp) 3),
       (4, (secPayload env inp (runKey env inp) 4).length, secPayload env inp (runKey env inp) 4),
       (5, (secPayload env inp (runKey env inp) 5).length, secPayload env inp (runKey env inp) 5),
       (6, (secPayload env inp (runKey env inp) 6).length,
         secPayload env inp (runKey env inp) 6)] := by
  have hout := finish_output env inp cur1 key fp2 fp3 fp4 fp5 fp6 st hfd
  have hpos : (openOutput env inp).pos = (env.createBinFile inp.newPTauFilename "ptau" 1 7).pos
      + (env.headerRpr inp.power).length := by
    simp [openOutput, Env.writePTauHeader, Fd.write]
  have hdrop : (finish env inp cur1 key fp2 fp3 fp4 fp5 fp6 st).fdNew.data.drop
      (openOutput env inp).pos = sectionsRpr env inp ++
        env.contributionsRpr (finish env inp cur1 key fp2 fp3 fp4 fp5 fp6 st).contributions ++
        (writeAt (env.createBinFile inp.newPTauFilename "ptau" 1 7).data
          (env.createBinFile inp.newPTauFilename "ptau" 1 7).pos
          (env.headerRpr inp.power)).drop ((openOutput env inp).pos + (sectionsRpr env inp ++
        env.contributionsRpr
          (finish env inp cur1 key fp2 fp3 fp4 fp5 fp6 st).contributions).length) := by
    rw [hout]
    simp only [Fd.write, Option.getD_none]
    rw [← writeAt_append, ← hpos, drop_writeAt_self]
  refine readSections_five _ _ _ _ _ _ _
    (env.contributionsRpr (finish env inp cur1 key fp2 fp3 fp4 fp5 fp6 st).contributions ++
      (writeAt (env.createBinFile inp.newPTauFilename "ptau" 1 7).data
          (env.createBinFile inp.newPTauFilename "ptau" 1 7).pos
          (env.headerRpr inp.power)).drop ((openOutput env inp).pos + (sectionsRpr env inp ++
        env.contributionsRpr
          (finish env inp cur1 key fp2 fp3 fp4 fp5 fp6 st).contributions).length))
    (by rw [hdrop]; simp only [sectionsRpr, List.append_assoc])
    (secPayload_length env inp _ h hl1 hl2 2 (by simp)).2.1
    (secPayload_length env inp _ h hl1 hl2 3 (by simp)).2.1
    (secPayload_length env inp _ h hl1 hl2 4 (by simp)).2.1
    (secPayload_length env inp _ h hl1 hl2 5 (by simp)).2.1
    (secPayload_length env inp _ h hl1 hl2 6 (by simp)).2.1

theorem lastChallangeHash_cases (env : Env) (inp : Input) (last : Bytes)
    (h : lastChallangeHash env inp = JSVal.bytes last) :
    (inp.contributions = [] → last = env.calculateFirstChallangeHash inp.power) ∧
    (∀ c, inp.contributions.getLast? = some c → c.get "nextChallange" = JSVal.bytes last) := by
  constructor
  · intro he
    simp only [lastChallangeHash, he, List.getLast?_nil, JSVal.bytes.injEq] at h
    exact h.symm
  · intro c hc
    simpa only [lastChallangeHash, hc] using h

theorem toyApplyFrom_length (r t inc : Nat) :
    ∀ (n : Nat) (b : Bytes) (j : Nat), b.length ≤ n →
      (toyApplyFrom r t inc j b).length = b.length := by
  intro n
  induction n using Nat.strong_induction_on with
  | _ n ih =>
    intro b j hb
    match b with
    | [] => simp [toyApplyFrom]
    | [x] => simp [toyApplyFrom]
    | x :: y :: rest =>
      simp only [List.length_cons] at hb
      simp only [toyApplyFrom, List.length_cons, ih (n - 2) (by omega) rest (j + 1) (by omega)]

theorem toyGrp_lengthPreserving (r : Nat) : (toyGrp r).LengthPreserving :=
  fun b t inc => toyApplyFrom_length r t inc b.length b 0 (le_refl _)

theorem toyGrp_additive_U (r : Nat) : (toyGrp r).Additive (toyGrp r).batchLEMtoU :=
  fun a b _ => List.map_append _ a b

theorem toyGrp_additive_C (r : Nat) : (toyGrp r).Additive (toyGrp r).batchLEMtoC :=
  fun a b _ => List.map_append _ a b

theorem toy_accepted : Accepted toyEnv (toyInput 1 1) where
  power_eq := rfl
  entropy := ⟨"x", by decide⟩
  challenge := ⟨[1, 0], rfl⟩
  size1 := by decide
  size2 := by decide
  present := by
    intro id hid
    simp only [List.mem_cons, List.mem_singleton, List.not_mem_nil, or_false] at hid
    rcases hid with rfl | rfl | rfl | rfl | rfl
    · exact ⟨{ p := 0, size := 6 }, by decide, by decide⟩
    · exact ⟨{ p := 6, size := 4 }, by decide, by decide⟩
    · exact ⟨{ p := 10, size := 4 }, by decide, by decide⟩
    · exact ⟨{ p := 14, size := 4 }, by decide, by decide⟩
    · exact ⟨{ p := 18, size := 2 }, by decide, by decide⟩

theorem forChunks_error (r : Nat) (G : Grp) (verbose : Bool) (name : String) (N : Int)
    (inc c : Nat) :
    ∀ (fuel i : Nat) (s : LoopState) (e : Err) (s1 : LoopState),
      forChunks N c (chunkBody r G verbose name N inc) fuel i s = Except.error (e, s1) →
      e = Err.outOfFuel ∨ e = Err.thrown "Reading out of bounds" := by
  intro fuel
  induction fuel with
  | zero =>
    intro i s e s1 h
    simp only [forChunks, Except.error.injEq, Prod.mk.injEq] at h
    exact Or.inl h.1.symm
  | succ fuel ih =>
    intro i s e s1 h
    simp only [forChunks] at h
    split at h
    · split at h
      · rename_i e1 hb
        simp only [chunkBody] at hb
        split at hb
        · simp only [Except.error.injEq] at hb h
          rw [h] at hb
          simp only [Prod.mk.injEq] at hb
          exact Or.inr hb.1.symm
        · simp at hb
      · exact ih _ _ _ _ h
    · simp at h

theorem processSection_error (env : Env) (inp : Input) (fuel sectionId : Nat)
    (groupName : String) (N : Int) (first inc : Nat) (sectionName : String) (st st1 : PState)
    (e : Err)
    (h : processSection env inp fuel sectionId groupName N first inc sectionName st
      = Except.error (e, st1)) :
    e ≠ Err.thrown "This file has been reduced. You cannot contribute into a reduced file." := by
  simp only [processSection, sectionOpen] at h
  split at h
  · rename_i e1 ho
    split at ho
    · simp only [Except.error.injEq] at ho h
      rw [h] at ho
      simp only [Prod.mk.injEq] at ho
      rw [← ho.1]
      decide
    · simp at ho
  · split at h
    · simp only [Except.error.injEq, Prod.mk.injEq] at h
      rw [← h.1]
      decide
    · split at h
      · rename_i e1 s1 hf
        simp only [Except.error.injEq, Prod.mk.injEq] at h
        rcases forChunks_error _ _ _ _ _ _ _ _ _ _ _ _ hf with h1 | h1
        · rw [← h.1, h1]; decide
        · rw [← h.1, h1]; decide
      · simp at h

theorem jsShl_one (power : Nat) (h : power ≤ 30) : jsShl 1 power = 2 ^ power := by
  have hp : power % 32 = power := Nat.mod_eq_of_lt (by omega)
  have h1 : toInt32 1 = 1 := by decide
  have hlt : (2 : Int) ^ power < 2 ^ 31 := by
    have : (2 : Nat) ^ power < 2 ^ 31 := Nat.pow_lt_pow_right (by norm_num) (by omega)
    exact_mod_cast this
  have hpos : (0 : Int) ≤ 2 ^ power := by positivity
  have hmod : (2 : Int) ^ power % 2 ^ 32 = 2 ^ power :=
    Int.emod_eq_of_lt hpos (by omega)
  unfold jsShl
  rw [hp, h1, one_mul]
  unfold toInt32
  rw [hmod, if_neg (by omega)]

theorem nPoints_small (power : Nat) (h : power ≤ 30) :
    (nPoints power 2).toNat = 2 * 2 ^ power - 1 ∧ (nPoints power 3).toNat = 2 ^ power ∧
    (nPoints power 4).toNat = 2 ^ power ∧ (nPoints power 5).toNat = 2 ^ power ∧
    (nPoints power 6).toNat = 1 := by
  have hpos : 1 ≤ 2 ^ power := Nat.one_le_two_pow
  have e : ((2 : Int) ^ power).toNat = 2 ^ power := by
    have : ((2 : Int) ^ power) = ((2 ^ power : Nat) : Int) := by push_cast; rfl
    rw [this, Int.toNat_ofNat]
  have e2 : ((2 : Int) ^ power * 2 - 1).toNat = 2 * 2 ^ power - 1 := by
    have : ((2 : Int) ^ power * 2 - 1) = ((2 * 2 ^ power - 1 : Nat) : Int) := by
      rw [Nat.cast_sub (by omega)]; push_cast; ring
    rw [this, Int.toNat_ofNat]
  simp only [nPoints, jsShl_one power h]
  exact ⟨e2, e, e, e, rfl⟩

theorem forChunks_fold {σ : Type} (N c : Nat) (hc : 1 ≤ c)
    (body : Nat → Nat → σ → Except (Err × σ) σ) :
    ∀ (fuel i : Nat) (s : σ), (N - i + c - 1) / c < fuel →
      forChunks (N : Int) c body fuel i s =
        foldChunks body c i (List.replicate ((N - i) / c) c ++
          (if (N - i) % c = 0 then [] else [(N - i) % c])) s := by
  intro fuel
  induction fuel with
  | zero => intro i s h; exact absurd h (Nat.not_lt_zero _)
  | succ fuel ih =>
    intro i s hfuel
    by_cases hi : i < N
    · have hi' : (i : Int) < (N : Int) := by omega
      have hn : (min ((N : Int) - (i : Int)) (c : Int)).toNat = min (N - i) c := by omega
      simp only [forChunks, hi', if_true, hn]
      by_cases hfull : c ≤ N - i
      · have hsplit : N - i = (N - (i + c)) + c := by omega
        have hdiv : (N - i) / c = (N - (i + c)) / c + 1 := by
          rw [hsplit, Nat.add_div_right _ (by omega)]
        have hmod : (N - i) % c = (N - (i + c)) % c := by
          rw [hsplit, Nat.add_mod_right]
        have hf : (N - (i + c) + c - 1) / c < fuel := by
          have e : (N - i + c - 1) = (N - (i + c) + c - 1) + c := by omega
          rw [e, Nat.add_div_right _ (by omega)] at hfuel
          omega
        rw [hdiv, hmod, Nat.min_eq_right hfull, List.replicate_succ, List.cons_append,
          foldChunks]
        cases body i c s with
        | error e => rfl
        | ok s1 => exact ih (i + c) s1 hf
      · have hz : N - (i + c) = 0 := by omega
        have hdiv : (N - i) / c = 0 := Nat.div_eq_of_lt (by omega)
        have hmod : (N - i) % c = N - i := Nat.mod_eq_of_lt (by omega)
        have hf : (N - (i + c) + c - 1) / c < fuel := by
          have hpos : 0 < (N - i + c - 1) / c := Nat.div_pos (by omega) (by omega)
          rw [hz, Nat.zero_add, Nat.div_eq_of_lt (by omega)]
          omega
        have hne : N - i ≠ 0 := by omega
        rw [hdiv, hmod, Nat.min_eq_left (by omega), List.replicate_zero, List.nil_append,
          if_neg hne, foldChunks]
        cases body i (N - i) s with
        | error e => rfl
        | ok s1 =>
          have := ih (i + c) s1 hf
          rw [hz] at this
          simpa [foldChunks] using this
    · have hi' : ¬ (i : Int) < (N : Int) := by omega
      have hz : N - i = 0 := by omega
      simp [forChunks, hi', hz, foldChunks]

theorem foldChunks_record (c : Nat) :
    ∀ (ns : List Nat) (i : Nat) (tr : List Nat),
      foldChunks (fun _ n (tr : List Nat) => Except.ok (tr ++ [n])) c i ns tr
        = Except.ok (tr ++ ns) := by
  intro ns
  induction ns with
  | nil => intro i tr; simp [foldChunks]
  | cons n rest ih =>
    intro i tr
    simp only [foldChunks, ih]
    simp

theorem local_append_left (G : Grp) (hL : G.Local) (o rest : Bytes) (off : Nat)
    (h : off + G.sG ≤ o.length) : G.fromRprLEM (o ++ rest) off = G.fromRprLEM o off := by
  rw [hL (o ++ rest) off, hL o off]
  congr 1
  unfold readAt
  rw [List.drop_append_of_le_length (by omega),
    List.take_append_of_le_length (by rw [List.length_drop]; omega)]

theorem chunkSize_two (sG : Nat) (h1 : 1 ≤ sG) (h2 : sG ≤ 2 ^ 19) : 2 ≤ chunkSize sG := by
  unfold chunkSize
  rw [jsShl_20]
  exact (Nat.le_div_iff_mul_le (by omega)).mpr (by norm_num; omega)

theorem firstPoints_of_payload (G : Grp) (hlen : G.LengthPreserving) (hL : G.Local)
    (r inc c : Nat) (hc : 2 ≤ c) (f m t : Nat) (inp : Bytes) (hm : m ≤ f)
    (hin : m * G.sG ≤ inp.length) (k : Nat) (hk : k ≤ min 2 m) :
    (List.range k).map (fun j => G.fromRprLEM ((chunkOuts G r inc c f m t inp).headD [])
        (j * G.sG)) =
      (List.range k).map (fun j => G.fromRprLEM (chunkOuts G r inc c f m t inp).flatten
        (j * G.sG)) := by
  by_cases h0 : m = 0
  · have : k = 0 := by omega
    subst this
    rfl
  · obtain ⟨f, rfl⟩ : ∃ f1, f = f1 + 1 := ⟨f - 1, by omega⟩
    have hl : (G.batchApplyKey (inp.take (min m c * G.sG)) t inc).length = min m c * G.sG := by
      rw [hlen, List.length_take]
      have : min m c * G.sG ≤ m * G.sG := Nat.mul_le_mul_right _ (Nat.min_le_left _ _)
      omega
    simp only [chunkOuts, h0, if_false, List.headD_cons, List.flatten_cons]
    apply List.map_congr_left
    intro j hj
    have hj' : j < k := List.mem_range.mp hj
    have hle : (j + 1) * G.sG ≤ min m c * G.sG := Nat.mul_le_mul_right _ (by omega)
    exact (local_append_left G hL _ _ _ (by rw [hl, ← Nat.succ_mul]; exact hle)).symm

theorem secFirstPoints_eq (env : Env) (inp : Input) (key : Key) (h : Accepted env inp)
    (hl1 : env.curve.G1.LengthPreserving) (hl2 : env.curve.G2.LengthPreserving)
    (hL1 : env.curve.G1.Local) (hL2 : env.curve.G2.Local)
    (hs1 : env.curve.G1.sG ≤ 2 ^ 19) (hs2 : env.curve.G2.sG ≤ 2 ^ 19)
    (id : Nat) (hid : id ∈ [2, 3, 4, 5, 6]) :
    secFirstPoints env inp key id =
      (List.range (min 2 (nPoints inp.power id)).toNat).map
        (fun j => (secGroup env.curve id).fromRprLEM (secPayload env inp key id)
          (j * (secGroup env.curve id).sG)) := by
  obtain ⟨e, hs, hb⟩ := h.present id hid
  have hp : sectionPos inp id = e.p := by simp [sectionPos, hs]
  have hG : (secGroup env.curve id).LengthPreserving ∧ (secGroup env.curve id).Local ∧
      1 ≤ (secGroup env.curve id).sG ∧ (secGroup env.curve id).sG ≤ 2 ^ 19 := by
    simp only [List.mem_cons, List.mem_singleton, List.not_mem_nil, or_false] at hid
    rcases hid with rfl | rfl | rfl | rfl | rfl
    · exact ⟨hl1, hL1, h.size1.1, hs1⟩
    · exact ⟨hl2, hL2, h.size2.1, hs2⟩
    · exact ⟨hl1, hL1, h.size1.1, hs1⟩
    · exact ⟨hl1, hL1, h.size1.1, hs1⟩
    · exact ⟨hl2, hL2, h.size2.1, hs2⟩
  unfold secFirstPoints secPayload secOuts
  exact firstPoints_of_payload _ hG.1 hG.2.1 _ _ _ (chunkSize_two _ hG.2.2.1 hG.2.2.2) _ _ _ _
    (le_refl _) (by rw [List.length_drop, hp]; omega) _ (by omega)

theorem jsShl_lt (a : Int) (b : Nat) : jsShl a b < 2 ^ 31 :=
  (toInt32_lt _).1

theorem toyGrp_local (r : Nat) : (toyGrp r).Local := by
  intro buf off
  simp [toyGrp, readAt, Grp.sG, List.take_take]

theorem second_checkpoint_outside_chunk (K : Nat) (hK : 0 < K) (hc : chunkSize (K * 2) = 1) :
    ∃ res st1,
      processSection (wideEnv K) (wideInput K) 3 2 "G1" 2 1 1 "tauG1" (wideState K)
        = Except.ok (res, st1) ∧
      res[1]? = some [] ∧
      readAt st1.fdNew.data (12 + K * 2) (K * 2) = List.replicate (K * 2) 2 ∧
      ([] : Bytes) ≠ List.replicate (K * 2) 2 := by
  have hsG : (wideGrp K).sG = K * 2 := rfl
  obtain ⟨res, st1, hrun, hq1, -, -, -, hq5⟩ := processSection_run (wideEnv K) (wideInput K) 3 2
    "G1" 2 1 1 "tauG1" (wideState K) { p := 0, size := K * 4 } (wideGrp K) rfl rfl
    (by rw [hsG, hc]) (by decide)
    (by simp only [hsG, wideState, wideInput, List.length_append, List.length_replicate]
        have : (2 : Int).toNat = 2 := rfl
        rw [this]; omega)
  have h2 : (2 : Int).toNat = 2 := rfl
  have hm : (min (2 : Int) 2).toNat = 2 := rfl
  have hdata : (wideState K).fdOld.data.drop 0
      = List.replicate (K * 2) 1 ++ List.replicate (K * 2) 2 := rfl
  have houts : chunkOuts (wideGrp K) (wideEnv K).curve.r 1 (chunkSize (wideGrp K).sG) 2 2 1
      (List.replicate (K * 2) 1 ++ List.replicate (K * 2) 2)
      = [List.replicate (K * 2) 1, List.replicate (K * 2) 2] := by
    have t1 : List.take (K * 2) (List.replicate (K * 2) 1 ++ List.replicate (K * 2) 2)
        = List.replicate (K * 2) (1 : Nat) := List.take_left' (List.length_replicate _ _)
    have d1 : List.drop (K * 2) (List.replicate (K * 2) 1 ++ List.replicate (K * 2) 2)
        = List.replicate (K * 2) (2 : Nat) := List.drop_left' (List.length_replicate _ _)
    have t2 : List.take (K * 2) (List.replicate (K * 2) (2 : Nat))
        = List.replicate (K * 2) 2 := List.take_of_length_le (by simp)
    rw [hsG, hc]
    simp only [chunkOuts, wideGrp, Grp.sG, Nat.one_mul, t1, d1, t2, Nat.min_self,
      show min 2 1 = 1 from rfl, show (2 : Nat) - 1 = 1 from rfl, show (1 : Nat) - 1 = 0 from rfl,
      show ((2 : Nat) = 0) = False from by simp, show ((1 : Nat) = 0) = False from by simp,
      if_false]
  rw [h2, hdata, houts] at hq1 hq5
  rw [hm] at hq5
  refine ⟨res, st1, hrun, ?_, ?_, ?_⟩
  · rw [hq5]
    have : (wideGrp K).fromRprLEM (List.replicate (K * 2) 1) (K * 2) = [] := by
      show readAt (List.replicate (K * 2) 1) (K * 2) (K * 2) = []
      unfold readAt
      rw [List.drop_eq_nil_of_le (by simp)]
      simp
    simp [List.range_succ, hsG, this]
  · rw [hq1]
    simp only [Fd.write, Option.getD_none, sectionRpr, wideState, List.flatten_cons,
      List.flatten_nil, List.append_nil]
    have := readAt_writeAt_mid ([] : Bytes) 0
      (toLE 4 2 ++ (toLE 8 (List.replicate (K * 2) 1 ++ List.replicate (K * 2) 2).length
        ++ List.replicate (K * 2) 1))
      (List.replicate (K * 2) 2) []
    simp only [List.append_nil, List.length_append, toLE_length, List.length_replicate,
      List.append_assoc, Nat.zero_add] at this ⊢
    have e : 12 + K * 2 = 4 + (8 + K * 2) := by omega
    rw [e]
    exact this
  · intro hcon
    have := congrArg List.length hcon
    simp only [List.length_nil, List.length_replicate] at this
    omega

/-! ## The claims -/

/-! ### C1: the chunked transformation is the per-point transformation -/

/-- C1: for every section with `N ≥ 0` points of `sG` bytes, `1 ≤ sG ≤ 2 ^ 20`, every `first`
and `inc`, if `batchApplyKey(buf, t, inc)` multiplies the point of index `j` by `t * inc ^ j`,
then `processSection` returns (with enough fuel) and the payload it writes in the output is
exactly the points `oldPoint[i] * (first * inc ^ i mod r)` for `i = 0 .. N - 1`, in order and
once each, whatever the chunk size `chunkSize sG` is. -/
theorem processSection_points (env : Env) (inp : Input) (sectionId : Nat) (groupName : String)
    (G : Grp) (N first inc : Nat) (sectionName : String) (st : PState) (entry : SectionEntry)
    (pts : List Bytes) (tail : Bytes) (mulPt : Bytes → Nat → Bytes)
    (hsec : (inp.section sectionId).bind List.head? = some entry)
    (hG : env.curve.group groupName = some G)
    (hsG : 1 ≤ G.sG ∧ G.sG ≤ 2 ^ 20)
    (hspec : G.ApplyKeySpec env.curve.r mulPt)
    (hpts : pts.length = N ∧ ∀ p ∈ pts, p.length = G.sG)
    (hpos : entry.p ≤ st.fdOld.data.length)
    (hfile : st.fdOld.data.drop entry.p = pts.flatten ++ tail) :
    ∃ fuel0, ∀ fuel, fuel0 ≤ fuel → ∃ res st1,
      processSection env inp fuel sectionId groupName (N : Int) first inc sectionName st
        = Except.ok (res, st1) ∧
      st1.fdNew = st.fdNew.write (sectionRpr sectionId
        ((List.range N).map
          (fun i => mulPt (pts.getD i []) ((first * inc ^ i) % env.curve.r))).flatten) none ∧
      readAt st1.fdNew.data (st.fdNew.pos + 12)
          ((List.range N).map
            (fun i => mulPt (pts.getD i []) ((first * inc ^ i) % env.curve.r))).flatten.length
        = ((List.range N).map
            (fun i => mulPt (pts.getD i []) ((first * inc ^ i) % env.curve.r))).flatten := by
  refine ⟨N + 1, fun fuel hfuel => ?_⟩
  have hlen : (st.fdOld.data.drop entry.p).length = (pts.flatten ++ tail).length := by
    rw [hfile]
  rw [List.length_drop, List.length_append, flatten_length_uniform G.sG pts hpts.2, hpts.1]
    at hlen
  obtain ⟨res, st1, hrun, hq1, -, -, -, -⟩ := processSection_run env inp fuel sectionId
    groupName (N : Int) first inc sectionName st entry G hsec hG
    (chunkSize_pos _ hsG.1 hsG.2) (by simp; omega) (by simp; omega)
  have hpay := chunkOuts_pointwise G env.curve.r mulPt hspec first inc (chunkSize G.sG)
    (chunkSize_pos _ hsG.1 hsG.2) N N first pts tail 0 hpts.1 (le_refl _) hpts.2 (by simp)
  simp only [Nat.zero_add] at hpay
  simp only [Int.toNat_ofNat, hfile, hpay] at hq1
  refine ⟨res, st1, hrun, hq1, ?_⟩
  rw [hq1]
  simp only [Fd.write, Option.getD_none, sectionRpr]
  have h12 : st.fdNew.pos + 12 = st.fdNew.pos + (toLE 4 sectionId ++ toLE 8
      ((List.range N).map
        (fun i => mulPt (pts.getD i []) ((first * inc ^ i) % env.curve.r))).flatten.length).length := by
    simp [toLE_length]
  rw [h12, ← List.append_assoc, ← writeAt_append]
  exact readAt_writeAt _ _ _

/-- C1 on the small instance: the section tauG1, three points, `first = 1`, `inc = 3`. -/
theorem processSection_points_witness :
    ∃ fuel0, ∀ fuel, fuel0 ≤ fuel → ∃ res st1,
      processSection toyEnv (toyInput 1 1) fuel 2 "G1" ((3 : Nat) : Int) 1 3 "tauG1" toyState
        = Except.ok (res, st1) ∧
      st1.fdNew = toyState.fdNew.write (sectionRpr 2
        ((List.range 3).map
          (fun i => toyMulPt ([[1, 2], [3, 4], [5, 6]].getD i [])
            ((1 * 3 ^ i) % toyEnv.curve.r))).flatten) none ∧
      readAt st1.fdNew.data (toyState.fdNew.pos + 12)
          ((List.range 3).map
            (fun i => toyMulPt ([[1, 2], [3, 4], [5, 6]].getD i [])
              ((1 * 3 ^ i) % toyEnv.curve.r))).flatten.length
        = ((List.range 3).map
            (fun i => toyMulPt ([[1, 2], [3, 4], [5, 6]].getD i [])
              ((1 * 3 ^ i) % toyEnv.curve.r))).flatten :=
  processSection_points toyEnv (toyInput 1 1) 2 "G1" (toyGrp 7) 3 1 3 "tauG1" toyState
    { p := 0, size := 6 } [[1, 2], [3, 4], [5, 6]] ((List.range 18).map (fun i => i + 7))
    toyMulPt (by decide) (by rfl) (by decide) (toyGrp_spec 7) (by decide) (by decide)
    (by decide)

/-! ### C2: the next challenge hash -/

/-- C2: for every accepted input, `contribute` returns (with enough fuel) and the
`nextChallange` stored in the new record is the digest of
`lastChallengeHash ‖ U(tauG1) ‖ U(tauG2) ‖ U(alphaTauG1) ‖ U(betaTauG1) ‖ U(betaTauG2)`, where
the five payloads are the ones read back from the output, `U` is `batchLEMtoU` of the group of
the section, and `lastChallengeHash` is the `nextChallange` of the last record of the log, or the
first challenge when the log is empty. -/
theorem nextChallange_is_digest (env : Env) (inp : Input) (h : Accepted env inp)
    (hl1 : env.curve.G1.LengthPreserving) (hl2 : env.curve.G2.LengthPreserving)
    (hU1 : env.curve.G1.Additive env.curve.G1.batchLEMtoU)
    (hU2 : env.curve.G2.Additive env.curve.G2.batchLEMtoU) :
    ∃ fuel0, ∀ fuel, fuel0 ≤ fuel → ∃ res cur last P2 P3 P4 P5 P6,
      contribute env inp fuel = Outcome.done res ∧
      res.contributions = inp.contributions ++ [cur] ∧
      lastChallangeHash env inp = JSVal.bytes last ∧
      (inp.contributions = [] → last = env.calculateFirstChallangeHash inp.power) ∧
      (∀ c, inp.contributions.getLast? = some c → c.get "nextChallange" = JSVal.bytes last) ∧
      readSections res.fdNew.data 5 (openOutput env inp).pos =
        [(2, P2.length, P2), (3, P3.length, P3), (4, P4.length, P4), (5, P5.length, P5),
         (6, P6.length, P6)] ∧
      cur.get "nextChallange" = JSVal.bytes (env.H (last ++
        (env.curve.G1.batchLEMtoU P2 ++ (env.curve.G2.batchLEMtoU P3 ++
        (env.curve.G1.batchLEMtoU P4 ++ (env.curve.G1.batchLEMtoU P5 ++
         env.curve.G2.batchLEMtoU P6)))))) := by
  refine ⟨2 ^ 32, fun fuel hfuel => ?_⟩
  obtain ⟨last, st6, hlast, hrun, hfd, hch, -⟩ := contribute_run env inp h fuel hfuel
  refine ⟨_, _, last, _, _, _, _, _, hrun, rfl, hlast,
    (lastChallangeHash_cases env inp last hlast).1,
    (lastChallangeHash_cases env inp last hlast).2,
    contribute_sections env inp h hl1 hl2 _ _ _ _ _ _ _ st6 hfd, ?_⟩
  rw [Obj.get, finishRecord_fields, hch,
    hashStream_eq env inp h hl1 hl2 _ _ hU1 hU2]
  simp [getField, Blake2b.digest]

/-- C2 on an instance: the small instance at power 1. -/
theorem nextChallange_is_digest_witness :
    ∃ fuel0, ∀ fuel, fuel0 ≤ fuel → ∃ res cur last P2 P3 P4 P5 P6,
      contribute toyEnv (toyInput 1 1) fuel = Outcome.done res ∧
      res.contributions = (toyInput 1 1).contributions ++ [cur] ∧
      lastChallangeHash toyEnv (toyInput 1 1) = JSVal.bytes last ∧
      ((toyInput 1 1).contributions = [] →
        last = toyEnv.calculateFirstChallangeHash (toyInput 1 1).power) ∧
      (∀ c, (toyInput 1 1).contributions.getLast? = some c →
        c.get "nextChallange" = JSVal.bytes last) ∧
      readSections res.fdNew.data 5 (openOutput toyEnv (toyInput 1 1)).pos =
        [(2, P2.length, P2), (3, P3.length, P3), (4, P4.length, P4), (5, P5.length, P5),
         (6, P6.length, P6)] ∧
      cur.get "nextChallange" = JSVal.bytes (toyEnv.H (last ++
        (toyEnv.curve.G1.batchLEMtoU P2 ++ (toyEnv.curve.G2.batchLEMtoU P3 ++
        (toyEnv.curve.G1.batchLEMtoU P4 ++ (toyEnv.curve.G1.batchLEMtoU P5 ++
         toyEnv.curve.G2.batchLEMtoU P6)))))) :=
  nextChallange_is_digest toyEnv (toyInput 1 1) toy_accepted (toyGrp_lengthPreserving 7)
    (toyGrp_lengthPreserving 7) (toyGrp_additive_U 7) (toyGrp_additive_U 7)

/-! ### C3: the response hash -/

/-- C3 as stated fails: on an accepted input (toy curve, power 1, empty log) the record appended
to the log has no `responseHash` field; the response hash is only computed and logged. -/
theorem responseHash_not_stored :
    ∃ res cur, contribute toyEnv (toyInput 1 1) 10 = Outcome.done res ∧
      res.contributions = (toyInput 1 1).contributions ++ [cur] ∧
      cur.get "responseHash" = JSVal.undefined ∧
      cur.get "responseHash" ≠ JSVal.bytes res.hashResponse ∧
      (cur.fields.map Prod.fst) = ["name", "type", "key", "tauG1", "tauG2", "alphaG1", "betaG1",
        "betaG2", "nextChallange", "partialHash"] := by
  refine ⟨_, _, rfl, rfl, ?_, ?_, ?_⟩ <;> decide

/-- C3 (amended): for every accepted input, `contribute` returns (with enough fuel) and the
response hash it computes and logs, `hashResponse`, is the digest of
`lastChallengeHash ‖ C(tauG1) ‖ C(tauG2) ‖ C(alphaTauG1) ‖ C(betaTauG1) ‖ C(betaTauG2) ‖ buffKey`,
where the payloads are read back from the output, `C` is `batchLEMtoC` and `buffKey` is the
`toPtauPubKeyRpr` encoding of the key stored in the new record; the record itself stores no
`responseHash` field. -/
theorem hashResponse_is_digest (env : Env) (inp : Input) (h : Accepted env inp)
    (hl1 : env.curve.G1.LengthPreserving) (hl2 : env.curve.G2.LengthPreserving)
    (hC1 : env.curve.G1.Additive env.curve.G1.batchLEMtoC)
    (hC2 : env.curve.G2.Additive env.curve.G2.batchLEMtoC) :
    ∃ fuel0, ∀ fuel, fuel0 ≤ fuel → ∃ res cur last key P2 P3 P4 P5 P6,
      contribute env inp fuel = Outcome.done res ∧
      res.contributions = inp.contributions ++ [cur] ∧
      lastChallangeHash env inp = JSVal.bytes last ∧
      readSections res.fdNew.data 5 (openOutput env inp).pos =
        [(2, P2.length, P2), (3, P3.length, P3), (4, P4.length, P4), (5, P5.length, P5),
         (6, P6.length, P6)] ∧
      cur.get "key" = JSVal.key key ∧
      res.hashResponse = env.H (last ++
        (env.curve.G1.batchLEMtoC P2 ++ (env.curve.G2.batchLEMtoC P3 ++
        (env.curve.G1.batchLEMtoC P4 ++ (env.curve.G1.batchLEMtoC P5 ++
         env.curve.G2.batchLEMtoC P6)))) ++
        env.toPtauPubKeyRpr
          (List.replicate (env.curve.G1.n8 * 2 * 6 + env.curve.G2.n8 * 2 * 3) 0) 0 key false) ∧
      cur.get "responseHash" = JSVal.undefined := by
  refine ⟨2 ^ 32, fun fuel hfuel => ?_⟩
  obtain ⟨last, st6, hlast, hrun, hfd, -, hrh⟩ := contribute_run env inp h fuel hfuel
  refine ⟨_, _, last, runKey env inp, _, _, _, _, _, hrun, rfl, hlast,
    contribute_sections env inp h hl1 hl2 _ _ _ _ _ _ _ st6 hfd, ?_, ?_, ?_⟩
  · rw [Obj.get, finishRecord_fields]
    simp [getField]
  · simp only [finish, hrh, Blake2b.update, Blake2b.digest, buffKey,
      hashStream_eq env inp h hl1 hl2 _ _ hC1 hC2]
  · rw [Obj.get, finishRecord_fields]
    simp [getField]

/-- C3 (amended) on an instance: the small instance at power 1. -/
theorem hashResponse_is_digest_witness :
    ∃ fuel0, ∀ fuel, fuel0 ≤ fuel → ∃ res cur last key P2 P3 P4 P5 P6,
      contribute toyEnv (toyInput 1 1) fuel = Outcome.done res ∧
      res.contributions = (toyInput 1 1).contributions ++ [cur] ∧
      lastChallangeHash toyEnv (toyInput 1 1) = JSVal.bytes last ∧
      readSections res.fdNew.data 5 (openOutput toyEnv (toyInput 1 1)).pos =
        [(2, P2.length, P2), (3, P3.length, P3), (4, P4.length, P4), (5, P5.length, P5),
         (6, P6.length, P6)] ∧
      cur.get "key" = JSVal.key key ∧
      res.hashResponse = toyEnv.H (last ++
        (toyEnv.curve.G1.batchLEMtoC P2 ++ (toyEnv.curve.G2.batchLEMtoC P3 ++
        (toyEnv.curve.G1.batchLEMtoC P4 ++ (toyEnv.curve.G1.batchLEMtoC P5 ++
         toyEnv.curve.G2.batchLEMtoC P6)))) ++
        toyEnv.toPtauPubKeyRpr
          (List.replicate (toyEnv.curve.G1.n8 * 2 * 6 + toyEnv.curve.G2.n8 * 2 * 3) 0) 0 key
          false) ∧
      cur.get "responseHash" = JSVal.undefined :=
  hashResponse_is_digest toyEnv (toyInput 1 1) toy_accepted (toyGrp_lengthPreserving 7)
    (toyGrp_lengthPreserving 7) (toyGrp_additive_C 7) (toyGrp_additive_C 7)

/-! ### C4: the snapshot of the response hasher -/

/-- C4: for every accepted input, the `partialHash` stored in the new record is the state of the
response hasher after it absorbed exactly `lastChallengeHash` followed by the compressed
encodings of the five sections, before any byte of the key; a hasher resumed from `partialHash`
and fed `buffKey` gives the digest `hashResponse`. -/
theorem partialHash_resumes (env : Env) (inp : Input) (h : Accepted env inp)
    (hl1 : env.curve.G1.LengthPreserving) (hl2 : env.curve.G2.LengthPreserving)
    (hC1 : env.curve.G1.Additive env.curve.G1.batchLEMtoC)
    (hC2 : env.curve.G2.Additive env.curve.G2.batchLEMtoC) :
    ∃ fuel0, ∀ fuel, fuel0 ≤ fuel → ∃ res cur last key state P2 P3 P4 P5 P6,
      contribute env inp fuel = Outcome.done res ∧
      res.contributions = inp.contributions ++ [cur] ∧
      lastChallangeHash env inp = JSVal.bytes last ∧
      readSections res.fdNew.data 5 (openOutput env inp).pos =
        [(2, P2.length, P2), (3, P3.length, P3), (4, P4.length, P4), (5, P5.length, P5),
         (6, P6.length, P6)] ∧
      cur.get "key" = JSVal.key key ∧
      cur.get "partialHash" = JSVal.bytes state ∧
      state = (Blake2b.create.update (last ++
        (env.curve.G1.batchLEMtoC P2 ++ (env.curve.G2.batchLEMtoC P3 ++
        (env.curve.G1.batchLEMtoC P4 ++ (env.curve.G1.batchLEMtoC P5 ++
         env.curve.G2.batchLEMtoC P6)))))).getPartialHash ∧
      ((Blake2b.setPartialHash state).update (buffKey env key)).digest env.H
        = res.hashResponse := by
  refine ⟨2 ^ 32, fun fuel hfuel => ?_⟩
  obtain ⟨last, st6, hlast, hrun, hfd, -, hrh⟩ := contribute_run env inp h fuel hfuel
  refine ⟨_, _, last, runKey env inp, st6.responseHasher.getPartialHash, _, _, _, _, _, hrun,
    rfl, hlast, contribute_sections env inp h hl1 hl2 _ _ _ _ _ _ _ st6 hfd, ?_, ?_, ?_, ?_⟩
  · rw [Obj.get, finishRecord_fields]
    simp [getField]
  · rw [Obj.get, finishRecord_fields]
    simp [getField]
  · simp only [hrh, Blake2b.getPartialHash, Blake2b.update, Blake2b.create, List.nil_append,
      hashStream_eq env inp h hl1 hl2 _ _ hC1 hC2]
  · simp only [finish, Blake2b.setPartialHash, Blake2b.getPartialHash]

/-- C4 on an instance: the small instance at power 1. -/
theorem partialHash_resumes_witness :
    ∃ fuel0, ∀ fuel, fuel0 ≤ fuel → ∃ res cur last key state P2 P3 P4 P5 P6,
      contribute toyEnv (toyInput 1 1) fuel = Outcome.done res ∧
      res.contributions = (toyInput 1 1).contributions ++ [cur] ∧
      lastChallangeHash toyEnv (toyInput 1 1) = JSVal.bytes last ∧
      readSections res.fdNew.data 5 (openOutput toyEnv (toyInput 1 1)).pos =
        [(2, P2.length, P2), (3, P3.length, P3), (4, P4.length, P4), (5, P5.length, P5),
         (6, P6.length, P6)] ∧
      cur.get "key" = JSVal.key key ∧
      cur.get "partialHash" = JSVal.bytes state ∧
      state = (Blake2b.create.update (last ++
        (toyEnv.curve.G1.batchLEMtoC P2 ++ (toyEnv.curve.G2.batchLEMtoC P3 ++
        (toyEnv.curve.G1.batchLEMtoC P4 ++ (toyEnv.curve.G1.batchLEMtoC P5 ++
         toyEnv.curve.G2.batchLEMtoC P6)))))).getPartialHash ∧
      ((Blake2b.setPartialHash state).update (buffKey toyEnv key)).digest toyEnv.H
        = res.hashResponse :=
  partialHash_resumes toyEnv (toyInput 1 1) toy_accepted (toyGrp_lengthPreserving 7)
    (toyGrp_lengthPreserving 7) (toyGrp_additive_C 7) (toyGrp_additive_C 7)

/-! ### C5: reduced files are rejected before any output -/

/-- C5: for every input whose power differs from its ceremony power, `contribute` fails with the
error "This file has been reduced..." and at that moment no output container exists
(`createBinFile` was not called, nothing was written); for every input whose power equals the
ceremony power, this check does not fail: the run never ends with that error. -/
theorem reduced_file_rejected (env : Env) (inp : Input) (fuel : Nat) :
    (inp.power ≠ inp.ceremonyPower →
      contribute env inp fuel = Outcome.failed
        (Err.thrown "This file has been reduced. You cannot contribute into a reduced file.")
        none) ∧
    (inp.power = inp.ceremonyPower → ∀ fd,
      contribute env inp fuel ≠ Outcome.failed
        (Err.thrown "This file has been reduced. You cannot contribute into a reduced file.")
        fd) := by
  constructor
  · intro h
    have hne : (inp.power != inp.ceremonyPower) = true := by simpa using h
    simp [contribute, hne]
  · intro h fd hc
    have hne : (inp.power != inp.ceremonyPower) = false := by simp [h]
    simp only [contribute, hne, Bool.false_eq_true, if_false] at hc
    split at hc
    · simp at hc
    · split at hc
      · split at hc
        · rename_i e st he
          simp only [Outcome.failed.injEq] at hc
          exact processSection_error _ _ _ _ _ _ _ _ _ _ _ _ he hc.1
        · split at hc
          · rename_i e st he
            simp only [Outcome.failed.injEq] at hc
            exact processSection_error _ _ _ _ _ _ _ _ _ _ _ _ he hc.1
          · split at hc
            · rename_i e st he
              simp only [Outcome.failed.injEq] at hc
              exact processSection_error _ _ _ _ _ _ _ _ _ _ _ _ he hc.1
            · split at hc
              · rename_i e st he
                simp only [Outcome.failed.injEq] at hc
                exact processSection_error _ _ _ _ _ _ _ _ _ _ _ _ he hc.1
              · split at hc
                · rename_i e st he
                  simp only [Outcome.failed.injEq] at hc
                  exact processSection_error _ _ _ _ _ _ _ _ _ _ _ _ he hc.1
                · simp at hc
      · simp only [Outcome.failed.injEq] at hc
        exact absurd hc.1 (by decide)

/-- C5 on an instance: the small instance with power 1 and ceremony power 2 is rejected without
output; with ceremony power 1 the run does not end with that error. -/
theorem reduced_file_rejected_witness :
    contribute toyEnv (toyInput 1 2) 10 = Outcome.failed
        (Err.thrown "This file has been reduced. You cannot contribute into a reduced file.")
        none ∧
    contribute toyEnv (toyInput 1 1) 10 ≠ Outcome.failed
        (Err.thrown "This file has been reduced. You cannot contribute into a reduced file.")
        none :=
  ⟨(reduced_file_rejected toyEnv (toyInput 1 2) 10).1 (by decide),
   (reduced_file_rejected toyEnv (toyInput 1 1) 10).2 rfl none⟩

/-! ### C6: the header power and the log -/

/-- C6: for every accepted input, `contribute` returns (with enough fuel); the header written to
the output (right after the container preamble) is the header of the power of the input; the
log written to the output (the last bytes written, up to the final cursor) is the log of the
input with exactly one record appended at the end: one more record, the first ones being the
records of the input, unchanged and in the same order. -/
theorem log_extended_by_one (env : Env) (inp : Input) (h : Accepted env inp) :
    ∃ fuel0, ∀ fuel, fuel0 ≤ fuel → ∃ res cur,
      contribute env inp fuel = Outcome.done res ∧
      readAt res.fdNew.data (env.createBinFile inp.newPTauFilename "ptau" 1 7).pos
        (env.headerRpr inp.power).length = env.headerRpr inp.power ∧
      res.contributions = inp.contributions ++ [cur] ∧
      res.contributions.length = inp.contributions.length + 1 ∧
      res.contributions.take inp.contributions.length = inp.contributions ∧
      (∀ k, k < inp.contributions.length → res.contributions[k]? = inp.contributions[k]?) ∧
      readAt res.fdNew.data (res.fdNew.pos - (env.contributionsRpr res.contributions).length)
        (env.contributionsRpr res.contributions).length
        = env.contributionsRpr (inp.contributions ++ [cur]) := by
  refine ⟨2 ^ 32, fun fuel hfuel => ?_⟩
  obtain ⟨last, st6, hlast, hrun, hfd, -, -⟩ := contribute_run env inp h fuel hfuel
  have hout := finish_output env inp (runRecord env inp) (runKey env inp)
    (secFirstPoints env inp (runKey env inp) 2) (secFirstPoints env inp (runKey env inp) 3)
    (secFirstPoints env inp (runKey env inp) 4) (secFirstPoints env inp (runKey env inp) 5)
    (secFirstPoints env inp (runKey env inp) 6) st6 hfd
  refine ⟨_, _, hrun, ?_, rfl, ?_, ?_, ?_, ?_⟩
  · rw [hout]
    simp only [Fd.write, Option.getD_none]
    exact readAt_writeAt_head _ _ _ _
  · simp [finish]
  · simp [finish]
  · intro k hk
    simp only [finish]
    exact List.getElem?_append_left hk
  · rw [hout]
    simp only [Fd.write, Option.getD_none, List.length_append]
    have e : (env.createBinFile inp.newPTauFilename "ptau" 1 7).pos +
        ((env.headerRpr inp.power).length + ((sectionsRpr env inp).length +
          (env.contributionsRpr (finish env inp (runRecord env inp) (runKey env inp)
            (secFirstPoints env inp (runKey env inp) 2)
            (secFirstPoints env inp (runKey env inp) 3)
            (secFirstPoints env inp (runKey env inp) 4)
            (secFirstPoints env inp (runKey env inp) 5)
            (secFirstPoints env inp (runKey env inp) 6) st6).contributions).length)) -
        (env.contributionsRpr (finish env inp (runRecord env inp) (runKey env inp)
            (secFirstPoints env inp (runKey env inp) 2)
            (secFirstPoints env inp (runKey env inp) 3)
            (secFirstPoints env inp (runKey env inp) 4)
            (secFirstPoints env inp (runKey env inp) 5)
            (secFirstPoints env inp (runKey env inp) 6) st6).contributions).length =
        (env.createBinFile inp.newPTauFilename "ptau" 1 7).pos +
          (env.headerRpr inp.power ++ sectionsRpr env inp).length := by
      simp only [List.length_append]; omega
    rw [e]
    have := readAt_writeAt_mid (env.createBinFile inp.newPTauFilename "ptau" 1 7).data
      (env.createBinFile inp.newPTauFilename "ptau" 1 7).pos
      (env.headerRpr inp.power ++ sectionsRpr env inp)
      (env.contributionsRpr (finish env inp (runRecord env inp) (runKey env inp)
            (secFirstPoints env inp (runKey env inp) 2)
            (secFirstPoints env inp (runKey env inp) 3)
            (secFirstPoints env inp (runKey env inp) 4)
            (secFirstPoints env inp (runKey env inp) 5)
            (secFirstPoints env inp (runKey env inp) 6) st6).contributions) []
    simp only [List.append_nil, List.append_assoc] at this
    rw [this]
    rfl

/-- C6 on an instance: the small instance at power 1. -/
theorem log_extended_by_one_witness :
    ∃ fuel0, ∀ fuel, fuel0 ≤ fuel → ∃ res cur,
      contribute toyEnv (toyInput 1 1) fuel = Outcome.done res ∧
      readAt res.fdNew.data (toyEnv.createBinFile (toyInput 1 1).newPTauFilename "ptau" 1 7).pos
        (toyEnv.headerRpr (toyInput 1 1).power).length = toyEnv.headerRpr (toyInput 1 1).power ∧
      res.contributions = (toyInput 1 1).contributions ++ [cur] ∧
      res.contributions.length = (toyInput 1 1).contributions.length + 1 ∧
      res.contributions.take (toyInput 1 1).contributions.length
        = (toyInput 1 1).contributions ∧
      (∀ k, k < (toyInput 1 1).contributions.length →
        res.contributions[k]? = (toyInput 1 1).contributions[k]?) ∧
      readAt res.fdNew.data
        (res.fdNew.pos - (toyEnv.contributionsRpr res.contributions).length)
        (toyEnv.contributionsRpr res.contributions).length
        = toyEnv.contributionsRpr ((toyInput 1 1).contributions ++ [cur]) :=
  log_extended_by_one toyEnv (toyInput 1 1) toy_accepted

/-! ### C7: section sizes -/

/-- C7 as stated fails: at power 31 the code computes `1 << 31 = -2147483648` points, so the
sections tauG1, tauG2, alphaTauG1 and betaTauG1 of the output are empty (length field 0)
instead of holding `2 ^ 31` points. -/
theorem section_sizes_wrap :
    jsShl 1 31 = -2147483648 ∧
    ∃ res, contribute toyEnv (toyInput 31 31) 10 = Outcome.done res ∧
      readSections res.fdNew.data 5 (openOutput toyEnv (toyInput 31 31)).pos =
        [(2, 0, []), (3, 0, []), (4, 0, []), (5, 0, []), (6, 2, [95, 100])] ∧
      (0 : Nat) ≠ 2 ^ 31 * toyEnv.curve.G2.sG := by
  refine ⟨by decide, _, rfl, ?_, ?_⟩ <;> decide

/-- C7 (amended): for every accepted power `power ≤ 30`, when the batch transformation keeps the
length of its input, the five sections of the output hold exactly `2 * 2 ^ power - 1` (tauG1),
`2 ^ power` (tauG2), `2 ^ power` (alphaTauG1), `2 ^ power` (betaTauG1) and 1 (betaTauG2)
points, and the length patched into each section header is that count times the size
`sG = G.F.n8 * 2` of a point of the group. -/
theorem section_sizes (env : Env) (inp : Input) (h : Accepted env inp) (hp : inp.power ≤ 30)
    (hl1 : env.curve.G1.LengthPreserving) (hl2 : env.curve.G2.LengthPreserving) :
    ∃ fuel0, ∀ fuel, fuel0 ≤ fuel → ∃ res P2 P3 P4 P5 P6,
      contribute env inp fuel = Outcome.done res ∧
      readSections res.fdNew.data 5 (openOutput env inp).pos =
        [(2, (2 * 2 ^ inp.power - 1) * (env.curve.G1.n8 * 2), P2),
         (3, 2 ^ inp.power * (env.curve.G2.n8 * 2), P3),
         (4, 2 ^ inp.power * (env.curve.G1.n8 * 2), P4),
         (5, 2 ^ inp.power * (env.curve.G1.n8 * 2), P5),
         (6, 1 * (env.curve.G2.n8 * 2), P6)] ∧
      P2.length = (2 * 2 ^ inp.power - 1) * (env.curve.G1.n8 * 2) ∧
      P3.length = 2 ^ inp.power * (env.curve.G2.n8 * 2) ∧
      P4.length = 2 ^ inp.power * (env.curve.G1.n8 * 2) ∧
      P5.length = 2 ^ inp.power * (env.curve.G1.n8 * 2) ∧
      P6.length = 1 * (env.curve.G2.n8 * 2) := by
  refine ⟨2 ^ 32, fun fuel hfuel => ?_⟩
  obtain ⟨last, st6, hlast, hrun, hfd, -, -⟩ := contribute_run env inp h fuel hfuel
  have hs := contribute_sections env inp h hl1 hl2 (runRecord env inp) (runKey env inp)
    (secFirstPoints env inp (runKey env inp) 2) (secFirstPoints env inp (runKey env inp) 3)
    (secFirstPoints env inp (runKey env inp) 4) (secFirstPoints env inp (runKey env inp) 5)
    (secFirstPoints env inp (runKey env inp) 6) st6 hfd
  obtain ⟨n2, n3, n4, n5, n6⟩ := nPoints_small inp.power hp
  have l2 := (secPayload_length env inp (runKey env inp) h hl1 hl2 2 (by simp)).1
  have l3 := (secPayload_length env inp (runKey env inp) h hl1 hl2 3 (by simp)).1
  have l4 := (secPayload_length env inp (runKey env inp) h hl1 hl2 4 (by simp)).1
  have l5 := (secPayload_length env inp (runKey env inp) h hl1 hl2 5 (by simp)).1
  have l6 := (secPayload_length env inp (runKey env inp) h hl1 hl2 6 (by simp)).1
  rw [n2] at l2; rw [n3] at l3; rw [n4] at l4; rw [n5] at l5; rw [n6] at l6
  simp only [secGroup, Grp.sG] at l2 l3 l4 l5 l6
  rw [l2, l3, l4, l5, l6] at hs
  exact ⟨_, _, _, _, _, _, hrun, hs, l2, l3, l4, l5, l6⟩

/-- C7 (amended) on an instance: the small instance at power 1. -/
theorem section_sizes_witness :
    ∃ fuel0, ∀ fuel, fuel0 ≤ fuel → ∃ res P2 P3 P4 P5 P6,
      contribute toyEnv (toyInput 1 1) fuel = Outcome.done res ∧
      readSections res.fdNew.data 5 (openOutput toyEnv (toyInput 1 1)).pos =
        [(2, (2 * 2 ^ (toyInput 1 1).power - 1) * (toyEnv.curve.G1.n8 * 2), P2),
         (3, 2 ^ (toyInput 1 1).power * (toyEnv.curve.G2.n8 * 2), P3),
         (4, 2 ^ (toyInput 1 1).power * (toyEnv.curve.G1.n8 * 2), P4),
         (5, 2 ^ (toyInput 1 1).power * (toyEnv.curve.G1.n8 * 2), P5),
         (6, 1 * (toyEnv.curve.G2.n8 * 2), P6)] ∧
      P2.length = (2 * 2 ^ (toyInput 1 1).power - 1) * (toyEnv.curve.G1.n8 * 2) ∧
      P3.length = 2 ^ (toyInput 1 1).power * (toyEnv.curve.G2.n8 * 2) ∧
      P4.length = 2 ^ (toyInput 1 1).power * (toyEnv.curve.G1.n8 * 2) ∧
      P5.length = 2 ^ (toyInput 1 1).power * (toyEnv.curve.G1.n8 * 2) ∧
      P6.length = 1 * (toyEnv.curve.G2.n8 * 2) :=
  section_sizes toyEnv (toyInput 1 1) toy_accepted (by decide) (toyGrp_lengthPreserving 7)
    (toyGrp_lengthPreserving 7)

/-! ### C8: checkpoints -/

/-- C8 as stated fails in two ways. At power 0 the sections tauG1 and tauG2 hold one point each,
`processSection` returns one checkpoint, and `contribute` stores `firstPoints[1]`, which is
`undefined`, in the fields `tauG1` and `tauG2` of the new record. And for points of more than
`2 ^ 19` bytes (here `2 * 262145`), the chunk size is 1: on a section of two points the second
checkpoint is decoded at offset `sG` of the first chunk, which holds one point only, so it is
not the transformed point of index 1 that the section holds in the output. -/
theorem checkpoints_missing :
    (∃ res cur, contribute toyEnv (toyInput 0 0) 10 = Outcome.done res ∧
      res.contributions = (toyInput 0 0).contributions ++ [cur] ∧
      cur.get "tauG1" = JSVal.undefined ∧ cur.get "tauG2" = JSVal.undefined ∧
      cur.get "alphaG1" = JSVal.point [22, 24] ∧ cur.get "betaG1" = JSVal.point [75, 80] ∧
      cur.get "betaG2" = JSVal.point [95, 100]) ∧
    (2 ^ 19 < 262145 * 2 ∧ chunkSize (262145 * 2) = 1 ∧
      ∃ res st1,
        processSection (wideEnv 262145) (wideInput 262145) 3 2 "G1" 2 1 1 "tauG1"
          (wideState 262145) = Except.ok (res, st1) ∧
        res[1]? = some [] ∧
        readAt st1.fdNew.data (12 + 262145 * 2) (262145 * 2) = List.replicate (262145 * 2) 2 ∧
        ([] : Bytes) ≠ List.replicate (262145 * 2) 2) := by
  refine ⟨?_, by decide, by decide,
    second_checkpoint_outside_chunk 262145 (by decide) (by decide)⟩
  refine ⟨_, _, rfl, rfl, ?_, ?_, ?_, ?_, ?_⟩ <;> decide

/-- C8 (amended): for every accepted power for which the tau sections hold at least two points
(`(1 << power) ≥ 2`) and for points of at most `2 ^ 19` bytes (the first chunk then holds two
points), when the curve library keeps buffer lengths and decodes a point from its own bytes:
`processSection` returns exactly `min(2, NPoints)` points, the transformed points at the
indices `0 .. min(2, NPoints) - 1` of the section it wrote; and in the new record `tauG1` and
`tauG2` are the transformed point of index 1 of their section, `alphaG1`, `betaG1` and `betaG2`
the transformed point of index 0 of theirs, all defined. -/
theorem checkpoints_defined (env : Env) (inp : Input) (h : Accepted env inp)
    (hp : 2 ≤ jsShl 1 inp.power)
    (hs1 : env.curve.G1.sG ≤ 2 ^ 19) (hs2 : env.curve.G2.sG ≤ 2 ^ 19)
    (hl1 : env.curve.G1.LengthPreserving) (hl2 : env.curve.G2.LengthPreserving)
    (hL1 : env.curve.G1.Local) (hL2 : env.curve.G2.Local) :
    (∀ (sectionId : Nat) (groupName : String) (G : Grp) (N : Int) (first inc : Nat)
        (sectionName : String) (st : PState) (entry : SectionEntry),
      (inp.section sectionId).bind List.head? = some entry →
      env.curve.group groupName = some G →
      entry.p + N.toNat * G.sG ≤ st.fdOld.data.length →
      ∃ fuel0, ∀ fuel, fuel0 ≤ fuel → ∃ res st1,
        processSection env inp fuel sectionId groupName N first inc sectionName st
          = Except.ok (res, st1) ∧
        res.length = (min 2 N).toNat ∧
        ∀ j, j < (min 2 N).toNat →
          res[j]? = some (G.fromRprLEM
            (readAt st1.fdNew.data (st.fdNew.pos + 12) (N.toNat * G.sG)) (j * G.sG))) ∧
    (∃ fuel0, ∀ fuel, fuel0 ≤ fuel → ∃ res cur P2 P3 P4 P5 P6,
      contribute env inp fuel = Outcome.done res ∧
      res.contributions = inp.contributions ++ [cur] ∧
      readSections res.fdNew.data 5 (openOutput env inp).pos =
        [(2, P2.length, P2), (3, P3.length, P3), (4, P4.length, P4), (5, P5.length, P5),
         (6, P6.length, P6)] ∧
      cur.get "tauG1" = JSVal.point (env.curve.G1.fromRprLEM P2 (1 * env.curve.G1.sG)) ∧
      cur.get "tauG2" = JSVal.point (env.curve.G2.fromRprLEM P3 (1 * env.curve.G2.sG)) ∧
      cur.get "alphaG1" = JSVal.point (env.curve.G1.fromRprLEM P4 (0 * env.curve.G1.sG)) ∧
      cur.get "betaG1" = JSVal.point (env.curve.G1.fromRprLEM P5 (0 * env.curve.G1.sG)) ∧
      cur.get "betaG2" = JSVal.point (env.curve.G2.fromRprLEM P6 (0 * env.curve.G2.sG))) := by
  constructor
  · intro sectionId groupName G N first inc sectionName st entry hsec hG hold
    have hGc : G = env.curve.G1 ∨ G = env.curve.G2 := by
      unfold Curve.group at hG
      split at hG
      · left; exact (Option.some.inj hG).symm
      · split at hG
        · right; exact (Option.some.inj hG).symm
        · simp at hG
    have hGp : G.LengthPreserving ∧ G.Local ∧ 1 ≤ G.sG ∧ G.sG ≤ 2 ^ 19 := by
      rcases hGc with rfl | rfl
      · exact ⟨hl1, hL1, h.size1.1, hs1⟩
      · exact ⟨hl2, hL2, h.size2.1, hs2⟩
    refine ⟨N.toNat + 1, fun fuel hfuel => ?_⟩
    obtain ⟨res, st1, hrun, hq1, -, -, -, hq5⟩ := processSection_run env inp fuel sectionId
      groupName N first inc sectionName st entry G hsec hG
      (chunkSize_pos _ hGp.2.2.1 (by omega)) (by omega) hold
    have hlen := (chunkOuts_length G hGp.1 env.curve.r inc (chunkSize G.sG)
      (chunkSize_pos _ hGp.2.2.1 (by omega)) N.toNat N.toNat first
      (st.fdOld.data.drop entry.p) (le_refl _) (by rw [List.length_drop]; omega)).1
    have hfp := firstPoints_of_payload G hGp.1 hGp.2.1 env.curve.r inc (chunkSize G.sG)
      (chunkSize_two _ hGp.2.2.1 hGp.2.2.2) N.toNat N.toNat first
      (st.fdOld.data.drop entry.p) (le_refl _) (by rw [List.length_drop]; omega)
      (min 2 N).toNat (by omega)
    rw [hfp] at hq5
    have hread : readAt st1.fdNew.data (st.fdNew.pos + 12) (N.toNat * G.sG) =
        (chunkOuts G env.curve.r inc (chunkSize G.sG) N.toNat N.toNat first
          (st.fdOld.data.drop entry.p)).flatten := by
      rw [hq1, ← hlen]
      generalize (chunkOuts G env.curve.r inc (chunkSize G.sG) N.toNat N.toNat first
        (st.fdOld.data.drop entry.p)).flatten = payload
      simp only [Fd.write, Option.getD_none, sectionRpr]
      have h12 : st.fdNew.pos + 12 = st.fdNew.pos
          + (toLE 4 sectionId ++ toLE 8 payload.length).length := by
        simp [toLE_length]
      rw [h12, ← List.append_assoc, ← writeAt_append]
      exact readAt_writeAt _ _ _
    refine ⟨res, st1, hrun, ?_, ?_⟩
    · rw [hq5]; simp
    · intro j hj
      rw [hq5, hread, List.getElem?_map, List.getElem?_range hj]
      rfl
  · refine ⟨2 ^ 32, fun fuel hfuel => ?_⟩
    obtain ⟨last, st6, hlast, hrun, hfd, -, -⟩ := contribute_run env inp h fuel hfuel
    have hlt := jsShl_lt 1 inp.power
    have n2 : (min 2 (nPoints inp.power 2)).toNat = 2 := by
      simp only [nPoints]; omega
    have n3 : (min 2 (nPoints inp.power 3)).toNat = 2 := by
      simp only [nPoints]; omega
    have n4 : (min 2 (nPoints inp.power 4)).toNat = 2 := by
      simp only [nPoints]; omega
    have n5 : (min 2 (nPoints inp.power 5)).toNat = 2 := by
      simp only [nPoints]; omega
    have n6 : (min 2 (nPoints inp.power 6)).toNat = 1 := by
      simp only [nPoints]; omega
    have f2 := secFirstPoints_eq env inp (runKey env inp) h hl1 hl2 hL1 hL2 hs1 hs2 2 (by simp)
    have f3 := secFirstPoints_eq env inp (runKey env inp) h hl1 hl2 hL1 hL2 hs1 hs2 3 (by simp)
    have f4 := secFirstPoints_eq env inp (runKey env inp) h hl1 hl2 hL1 hL2 hs1 hs2 4 (by simp)
    have f5 := secFirstPoints_eq env inp (runKey env inp) h hl1 hl2 hL1 hL2 hs1 hs2 5 (by simp)
    have f6 := secFirstPoints_eq env inp (runKey env inp) h hl1 hl2 hL1 hL2 hs1 hs2 6 (by simp)
    rw [n2] at f2; rw [n3] at f3; rw [n4] at f4; rw [n5] at f5; rw [n6] at f6
    refine ⟨_, _, _, _, _, _, _, hrun, rfl,
      contribute_sections env inp h hl1 hl2 _ _ _ _ _ _ _ st6 hfd, ?_, ?_, ?_, ?_, ?_⟩
    · rw [Obj.get, finishRecord_fields, f2]
      simp [getField, pointAt, secGroup, List.range_succ]
    · rw [Obj.get, finishRecord_fields, f3]
      simp [getField, pointAt, secGroup, List.range_succ]
    · rw [Obj.get, finishRecord_fields, f4]
      simp [getField, pointAt, secGroup, List.range_succ]
    · rw [Obj.get, finishRecord_fields, f5]
      simp [getField, pointAt, secGroup, List.range_succ]
    · rw [Obj.get, finishRecord_fields, f6]
      simp [getField, pointAt, secGroup, List.range_succ]

/-- C8 (amended) on an instance: the small instance at power 1. -/
theorem checkpoints_defined_witness :
    (∀ (sectionId : Nat) (groupName : String) (G : Grp) (N : Int) (first inc : Nat)
        (sectionName : String) (st : PState) (entry : SectionEntry),
      ((toyInput 1 1).section sectionId).bind List.head? = some entry →
      toyEnv.curve.group groupName = some G →
      entry.p + N.toNat * G.sG ≤ st.fdOld.data.length →
      ∃ fuel0, ∀ fuel, fuel0 ≤ fuel → ∃ res st1,
        processSection toyEnv (toyInput 1 1) fuel sectionId groupName N first inc sectionName st
          = Except.ok (res, st1) ∧
        res.length = (min 2 N).toNat ∧
        ∀ j, j < (min 2 N).toNat →
          res[j]? = some (G.fromRprLEM
            (readAt st1.fdNew.data (st.fdNew.pos + 12) (N.toNat * G.sG)) (j * G.sG))) ∧
    (∃ fuel0, ∀ fuel, fuel0 ≤ fuel → ∃ res cur P2 P3 P4 P5 P6,
      contribute toyEnv (toyInput 1 1) fuel = Outcome.done res ∧
      res.contributions = (toyInput 1 1).contributions ++ [cur] ∧
      readSections res.fdNew.data 5 (openOutput toyEnv (toyInput 1 1)).pos =
        [(2, P2.length, P2), (3, P3.length, P3), (4, P4.length, P4), (5, P5.length, P5),
         (6, P6.length, P6)] ∧
      cur.get "tauG1" = JSVal.point (toyEnv.curve.G1.fromRprLEM P2 (1 * toyEnv.curve.G1.sG)) ∧
      cur.get "tauG2" = JSVal.point (toyEnv.curve.G2.fromRprLEM P3 (1 * toyEnv.curve.G2.sG)) ∧
      cur.get "alphaG1"
        = JSVal.point (toyEnv.curve.G1.fromRprLEM P4 (0 * toyEnv.curve.G1.sG)) ∧
      cur.get "betaG1" = JSVal.point (toyEnv.curve.G1.fromRprLEM P5 (0 * toyEnv.curve.G1.sG)) ∧
      cur.get "betaG2"
        = JSVal.point (toyEnv.curve.G2.fromRprLEM P6 (0 * toyEnv.curve.G2.sG))) :=
  checkpoints_defined toyEnv (toyInput 1 1) toy_accepted (by decide) (by decide) (by decide)
    (toyGrp_lengthPreserving 7) (toyGrp_lengthPreserving 7) (toyGrp_local 7) (toyGrp_local 7)

/-! ### C9: reserve-and-patch -/

/-- C9: reserve-and-patch. A call of `processSection` started with the output cursor at `p`
returns (with enough fuel, when the old file holds the section) and: the section id is written
on 4 bytes at `p`; the 8-byte length field at `pSection = p + 4` is first 0 (state after the
placeholder, cursor `p + 12`) and finally the payload length `L`; the `L` payload bytes are at
`p + 12`; the cursor is restored to `p + 12 + L`, the end of the written data; no byte of the output
before `p` is changed. -/
theorem processSection_reserve_patch (env : Env) (inp : Input) (sectionId : Nat)
    (groupName : String) (G : Grp) (N : Int) (first inc : Nat) (sectionName : String)
    (st : PState) (entry : SectionEntry)
    (hsec : (inp.section sectionId).bind List.head? = some entry)
    (hG : env.curve.group groupName = some G)
    (hsG : 1 ≤ G.sG ∧ G.sG ≤ 2 ^ 20)
    (hold : entry.p + N.toNat * G.sG ≤ st.fdOld.data.length) :
    ∃ fuel0, ∀ fuel, fuel0 ≤ fuel → ∃ res st1 stOpen payload,
      sectionOpen inp sectionId st = Except.ok (st.fdNew.pos + 4, stOpen) ∧
      readAt stOpen.fdNew.data st.fdNew.pos 4 = toLE 4 sectionId ∧
      readAt stOpen.fdNew.data (st.fdNew.pos + 4) 8 = toLE 8 0 ∧
      stOpen.fdNew.pos = st.fdNew.pos + 12 ∧
      processSection env inp fuel sectionId groupName N first inc sectionName st
        = Except.ok (res, st1) ∧
      readAt st1.fdNew.data st.fdNew.pos 4 = toLE 4 sectionId ∧
      readAt st1.fdNew.data (st.fdNew.pos + 4) 8 = toLE 8 payload.length ∧
      (payload.length < 2 ^ 64 →
        fromLE (readAt st1.fdNew.data (st.fdNew.pos + 4) 8) = payload.length) ∧
      readAt st1.fdNew.data (st.fdNew.pos + 12) payload.length = payload ∧
      st1.fdNew.pos = st.fdNew.pos + 12 + payload.length ∧
      st1.fdNew.data.length = max st.fdNew.data.length (st.fdNew.pos + 12 + payload.length) ∧
      ∀ k, k < st.fdNew.pos → k < st.fdNew.data.length →
        st1.fdNew.data[k]? = st.fdNew.data[k]? := by
  refine ⟨N.toNat + 1, fun fuel hfuel => ?_⟩
  obtain ⟨res, st1, hrun, hq1, -, -, -, -⟩ := processSection_run env inp fuel sectionId
    groupName N first inc sectionName st entry G hsec hG
    (chunkSize_pos _ hsG.1 hsG.2) (by omega) hold
  generalize (chunkOuts G env.curve.r inc (chunkSize G.sG) N.toNat N.toNat first
    (st.fdOld.data.drop entry.p)).flatten = payload at hq1
  have h4 : st.fdNew.pos + 4 = st.fdNew.pos + (toLE 4 sectionId).length := by
    rw [toLE_length]
  have h8 : (8 : Nat) = (toLE 8 payload.length).length := by rw [toLE_length]
  have h80 : (8 : Nat) = (toLE 8 0).length := by rw [toLE_length]
  have h44 : (4 : Nat) = (toLE 4 sectionId).length := by rw [toLE_length]
  have h12 : st.fdNew.pos + 12 = st.fdNew.pos
      + (toLE 4 sectionId ++ toLE 8 payload.length).length := by
    simp [toLE_length]
  have hlenfield : readAt st1.fdNew.data (st.fdNew.pos + 4) 8 = toLE 8 payload.length := by
    rw [hq1]
    simp only [Fd.write, Option.getD_none, sectionRpr]
    rw [h4, h8]
    exact readAt_writeAt_mid _ _ _ _ _
  refine ⟨res, st1,
    { fdOld := { data := st.fdOld.data, pos := entry.p },
      fdNew := (st.fdNew.writeULE32 sectionId none).writeULE64 0 none,
      newChallangeHasher := st.newChallangeHasher, responseHasher := st.responseHasher,
      console := st.console }, payload, ?_, ?_, ?_, ?_, hrun, ?_, hlenfield, ?_, ?_, ?_, ?_, ?_⟩
  · simp [sectionOpen, hsec, Fd.writeULE32, Fd.write, toLE_length]
  · simp only [Fd.writeULE32, Fd.writeULE64, Fd.write_write]
    simp only [Fd.write, Option.getD_none]
    rw [h44]
    exact readAt_writeAt_head _ _ _ _
  · simp only [Fd.writeULE32, Fd.writeULE64, Fd.write_write]
    simp only [Fd.write, Option.getD_none]
    rw [h4, h80]
    have := readAt_writeAt_mid st.fdNew.data st.fdNew.pos (toLE 4 sectionId) (toLE 8 0) []
    simpa using this
  · simp [Fd.writeULE32, Fd.writeULE64, Fd.write, toLE_length]
  · rw [hq1]
    simp only [Fd.write, Option.getD_none, sectionRpr]
    rw [h44]
    exact readAt_writeAt_head _ _ _ _
  · intro hL
    rw [hlenfield, fromLE_toLE]
    exact Nat.mod_eq_of_lt (by norm_num; exact hL)
  · rw [hq1]
    simp only [Fd.write, Option.getD_none, sectionRpr]
    rw [h12, ← List.append_assoc, ← writeAt_append]
    exact readAt_writeAt _ _ _
  · rw [hq1]
    simp only [Fd.write, Option.getD_none, sectionRpr_length]
    omega
  · rw [hq1]
    simp only [Fd.write, Option.getD_none, writeAt_length, sectionRpr_length]
    omega
  · intro k hk hd
    rw [hq1]
    exact getElem?_writeAt_before _ _ _ k hk hd

/-- C9 on an instance: the section tauG1 of the small instance. -/
theorem processSection_reserve_patch_witness :
    ∃ fuel0, ∀ fuel, fuel0 ≤ fuel → ∃ res st1 stOpen payload,
      sectionOpen (toyInput 1 1) 2 toyState = Except.ok (toyState.fdNew.pos + 4, stOpen) ∧
      readAt stOpen.fdNew.data toyState.fdNew.pos 4 = toLE 4 2 ∧
      readAt stOpen.fdNew.data (toyState.fdNew.pos + 4) 8 = toLE 8 0 ∧
      stOpen.fdNew.pos = toyState.fdNew.pos + 12 ∧
      processSection toyEnv (toyInput 1 1) fuel 2 "G1" 3 1 3 "tauG1" toyState
        = Except.ok (res, st1) ∧
      readAt st1.fdNew.data toyState.fdNew.pos 4 = toLE 4 2 ∧
      readAt st1.fdNew.data (toyState.fdNew.pos + 4) 8 = toLE 8 payload.length ∧
      (payload.length < 2 ^ 64 →
        fromLE (readAt st1.fdNew.data (toyState.fdNew.pos + 4) 8) = payload.length) ∧
      readAt st1.fdNew.data (toyState.fdNew.pos + 12) payload.length = payload ∧
      st1.fdNew.pos = toyState.fdNew.pos + 12 + payload.length ∧
      st1.fdNew.data.length
        = max toyState.fdNew.data.length (toyState.fdNew.pos + 12 + payload.length) ∧
      ∀ k, k < toyState.fdNew.pos → k < toyState.fdNew.data.length →
        st1.fdNew.data[k]? = toyState.fdNew.data[k]? :=
  processSection_reserve_patch toyEnv (toyInput 1 1) 2 "G1" (toyGrp 7) 3 1 3 "tauG1" toyState
    { p := 0, size := 6 } (by decide) (by rfl) (by decide) (by decide)

/-! ### C10: the chunk loop -/

/-- C10 as stated fails: a group whose points have `sG = 2 * 524289 > 2 ^ 20` bytes has
`sG ≥ 1` but chunk size 0, and the chunk loop for one point never ends, whatever the fuel. -/
theorem chunk_loop_unbounded :
    1 ≤ 524289 * 2 ∧ chunkSize (524289 * 2) = 0 ∧ ¬ (1 ≤ chunkSize (524289 * 2)) ∧
    ∀ fuel tr0, ∃ tr, forChunks (1 : Int) (chunkSize (524289 * 2))
        (fun _ n (tr : List Nat) => Except.ok (tr ++ [n])) fuel 0 tr0 =
      Except.error (Err.outOfFuel, tr) := by
  have hc : chunkSize (524289 * 2) = 0 := by decide
  refine ⟨by decide, hc, by rw [hc]; decide, ?_⟩
  rw [hc]
  intro fuel
  induction fuel with
  | zero => intro tr0; exact ⟨tr0, rfl⟩
  | succ fuel ih =>
    intro tr0
    simp only [forChunks, Nat.cast_zero, zero_lt_one, if_true, Nat.add_zero]
    exact ih _

/-- C10 (amended): for every point size `1 ≤ sG ≤ 2 ^ 20` and every `NPoints ≥ 0`, the chunk
size `chunkSize sG = floor(2 ^ 20 / sG)` is at least 1 and `chunkSize * sG ≤ 2 ^ 20`; the chunk
loop ends after exactly `ceil(NPoints / chunkSize)` iterations (any larger fuel returns, this
fuel or less runs out); it runs its body, whatever it is (in particular the body of
`processSection`), once per chunk; the chunks hold `chunkSize` points each, except possibly the
last one which holds the remainder, and every chunk has `n * sG ≤ 2 ^ 20` bytes. -/
theorem chunk_loop_bounded (sG N : Nat) (h1 : 1 ≤ sG) (h2 : sG ≤ 2 ^ 20) :
    1 ≤ chunkSize sG ∧ chunkSize sG * sG ≤ 2 ^ 20 ∧
    ∃ ns : List Nat,
      ns = List.replicate (N / chunkSize sG) (chunkSize sG) ++
        (if N % chunkSize sG = 0 then [] else [N % chunkSize sG]) ∧
      ns.length = (N + chunkSize sG - 1) / chunkSize sG ∧
      (∀ n ∈ ns, n * sG ≤ 2 ^ 20) ∧
      (∀ fuel, (N + chunkSize sG - 1) / chunkSize sG < fuel →
        forChunks (N : Int) (chunkSize sG)
          (fun _ n (tr : List Nat) => Except.ok (tr ++ [n])) fuel 0 [] = Except.ok ns) ∧
      (∀ fuel, fuel ≤ (N + chunkSize sG - 1) / chunkSize sG →
        ∃ tr, forChunks (N : Int) (chunkSize sG)
            (fun _ n (tr : List Nat) => Except.ok (tr ++ [n])) fuel 0 [] =
          Except.error (Err.outOfFuel, tr)) ∧
      (∀ (σ : Type) (body : Nat → Nat → σ → Except (Err × σ) σ) (s : σ) (fuel : Nat),
        (N + chunkSize sG - 1) / chunkSize sG < fuel →
        forChunks (N : Int) (chunkSize sG) body fuel 0 s =
          foldChunks body (chunkSize sG) 0 ns s) := by
  have hc := chunkSize_pos sG h1 h2
  have hb : chunkSize sG * sG ≤ 2 ^ 20 := by
    unfold chunkSize
    rw [jsShl_20]
    exact Nat.div_mul_le_self _ _
  refine ⟨hc, hb, _, rfl, ?_, ?_, ?_, ?_, ?_⟩
  · simp only [List.length_append, List.length_replicate]
    rw [ceil_div N _ hc]
    split <;> simp
  · intro n hn
    simp only [List.mem_append, List.mem_replicate] at hn
    rcases hn with ⟨_, rfl⟩ | hn
    · exact hb
    · split at hn
      · simp at hn
      · simp only [List.mem_singleton] at hn
        subst hn
        exact le_trans (Nat.mul_le_mul_right _ (Nat.le_of_lt (Nat.mod_lt _ (by omega)))) hb
  · intro fuel hfuel
    have := forChunks_trace N (chunkSize sG) hc fuel 0 [] (by simpa using hfuel)
    simpa using this
  · intro fuel hfuel
    exact forChunks_exhaust N (chunkSize sG) hc fuel 0 [] (by simpa using hfuel)
  · intro σ body s fuel hfuel
    have := forChunks_fold N (chunkSize sG) hc body fuel 0 s (by simpa using hfuel)
    simpa using this

/-- C10 on an instance: points of 64 bytes and 100000 points. -/
theorem chunk_loop_bounded_witness :
    1 ≤ chunkSize 64 ∧ chunkSize 64 * 64 ≤ 2 ^ 20 ∧
    ∃ ns : List Nat,
      ns = List.replicate (100000 / chunkSize 64) (chunkSize 64) ++
        (if 100000 % chunkSize 64 = 0 then [] else [100000 % chunkSize 64]) ∧
      ns.length = (100000 + chunkSize 64 - 1) / chunkSize 64 ∧
      (∀ n ∈ ns, n * 64 ≤ 2 ^ 20) ∧
      (∀ fuel, (100000 + chunkSize 64 - 1) / chunkSize 64 < fuel →
        forChunks ((100000 : Nat) : Int) (chunkSize 64)
          (fun _ n (tr : List Nat) => Except.ok (tr ++ [n])) fuel 0 [] = Except.ok ns) ∧
      (∀ fuel, fuel ≤ (100000 + chunkSize 64 - 1) / chunkSize 64 →
        ∃ tr, forChunks ((100000 : Nat) : Int) (chunkSize 64)
            (fun _ n (tr : List Nat) => Except.ok (tr ++ [n])) fuel 0 [] =
          Except.error (Err.outOfFuel, tr)) ∧
      (∀ (σ : Type) (body : Nat → Nat → σ → Except (Err × σ) σ) (s : σ) (fuel : Nat),
        (100000 + chunkSize 64 - 1) / chunkSize 64 < fuel →
        forChunks ((100000 : Nat) : Int) (chunkSize 64) body fuel 0 s =
          foldChunks body (chunkSize 64) 0 ns s) :=
  chunk_loop_bounded 64 100000 (by decide) (by decide)

end Snarkjs
